import Mathlib

/-!
# Verification of the pyblish-lite publishing Controller

A shallow embedding of `src/pyblish_lite/control.py` (the `Controller`
class): the data model (plugins, instances, processing state), the pair
generator `_pair_yielder`, the executor `_process`, and the deferred
run loop `iterate_and_process` together with the commands `reset`,
`collect`, `validate`, `publish` and `stop`.

The deferred-scheduling primitive (`util.defer`) only sequences
callbacks on a single thread, so one command run is embedded as a
synchronous loop that produces the list of emitted Qt signals
(`Event`s) in order.  The generator `_pair_yielder` is embedded with an
explicit resumable position (`GenState`); raising `StopIteration`
inside a Python generator terminates it for good, so every such raise
moves the position to `GenState.dead`, after which any `next()` call
raises a plain `StopIteration` immediately.

External collaborators (the pyblish library's `plugin.process`, the
registered test, plugin discovery and the registered validation order)
are parameters, collected in the `Host` structure.  The repository's
`util.py` is not among the given sources; the pieces of it that the
Controller uses (`OrderGroups`, `collect_families_from_instances`) are
modelled from the spec and marked as such in their doc comments.
-/

namespace Pyblish

/-- A pyblish plugin descriptor as the Controller consumes it: numeric
`order` (a real number in pyblish; embedded as `ℚ`, which carries the
ordering structure the code uses), `active` flag, the
`__instanceEnabled__` flag, and the supported families (`"*"` is the
wildcard). -/
structure Plugin where
  name : String
  order : ℚ
  active : Bool
  instanceEnabled : Bool
  families : List String
deriving DecidableEq

/-- An instance inside the Context: its data holds an optional boolean
`publish` flag (`none` models an absent key) and family tags. -/
structure Instance where
  name : String
  families : List String
  publish : Option Bool
deriving DecidableEq

/-- The `self.processing` dict rebuilt by `reset_variables`: note the
two distinct keys `next_order` and `nextOrder`, both present in the
source. -/
structure Processing where
  stop_on_validation : Bool
  last_plugin_order : Option ℚ
  current_order : Option ℚ
  next_order : Option ℚ
  nextOrder : Option ℚ
  ordersWithError : Finset ℚ
deriving DecidableEq

/-- The result dict of one `pyblish.plugin.process` call, as far as the
Controller reads it: the plugin, the instance (or `none` for a context
run) and the optional error. -/
structure ProcResult where
  plugin : Plugin
  inst : Option Instance
  error : Option String
deriving DecidableEq

/-- The Qt signals the Controller emits, in emission order, plus
`u_print` for `util.u_print` in `on_unexpected_error` (the only place a
fault message surfaces).  `was_stopped` is declared by the source
(line 46) and is included so that statements about it can be made. -/
inductive Event where
  | was_reset
  | passed_group
  | about_to_process (p : Plugin) (i : Option Instance)
  | was_processed (r : ProcResult)
  | was_stopped
  | was_finished
  | u_print (msg : String)
deriving DecidableEq

/-- The resumable position of the `_pair_yielder` generator:
either about to run the loop body for a suffix of the plugin list,
suspended inside the per-instance inner loop (after a yield), or
dead (exhausted or terminated by a raised exception: any further
`next()` raises `StopIteration` with no message). -/
inductive GenState where
  | atPlugins (ps : List Plugin)
  | inInsts (p : Plugin) (irest : List Instance) (ps : List Plugin)
  | dead
deriving DecidableEq

/-- The Controller's mutable state: the Context's instance list, the
loaded plugins, the run flags set in `reset_variables`, the stage
boundary bookkeeping, `self.processing`, the generator position,
`self.current_pair` (`none` is Python `None`; `some (none, none)` is
the `(None, None)` sentinel) and `self.current_error`.  `groupKeys`
snapshots `order_groups.groups().keys()`. -/
structure Ctrl where
  context : List Instance
  plugins : List Plugin
  is_running : Bool
  stopped : Bool
  errored : Bool
  collectors_order : ℚ
  collected : Bool
  validators_order : ℚ
  validated : Bool
  processing : Processing
  gen : GenState
  current_pair : Option (Option Plugin × Option Instance)
  current_error : Option String
  groupKeys : List ℚ
deriving DecidableEq

/-- The external collaborators of one session: `runPlugin` embeds
`pyblish.plugin.process` (returning the updated Context and the
result's error, or `Except.error` when the call raises), `test` embeds
the registered test (`Except.error` when the host's test itself
raises, `Except.ok msg` its message, empty meaning "continue"),
`stopAfter` models the host invoking `stop()` at the legal suspension
point right after the n-th `was_processed` emission, `discovered` the
registry's plugin list and `validationOrder` the registered validation
order consumed by `OrderGroups.validation_order()`. -/
structure Host where
  runPlugin : Plugin → Option Instance → List Instance → Except String (List Instance × Option String)
  test : Processing → Except String String
  stopAfter : Option Nat
  discovered : List Plugin
  validationOrder : ℚ

/-- Models `pyblish.logic.instances_by_plugin` (external library):
the instances of the context whose families intersect the plugin's
supported families, with `"*"` as wildcard. -/
def instances_by_plugin (context : List Instance) (p : Plugin) : List Instance :=
  context.filter fun i =>
    p.families.contains "*" || i.families.any fun f => p.families.contains f

/-- Models `pyblish.logic.plugins_by_families` (external library)
specialised to the singleton list the source passes: does the plugin
support any of the given families? -/
def plugin_matches_families (p : Plugin) (fams : List String) : Bool :=
  p.families.contains "*" || fams.any fun f => p.families.contains f

/-- Modelled from the spec: `util.collect_families_from_instances`
(`util.py` is not among the given sources) with `only_active=True`
collects the family tags of the instances whose `publish` flag is not
`False` — "at least one active instance's family is compatible with
the plugin" gates a context-level pair. -/
def collect_families_from_instances (context : List Instance) : List String :=
  (context.filter fun i => ¬ i.publish = some false).foldr (fun i acc => i.families ++ acc) []

/-- Modelled from the spec: insertion into the ordered, deduplicated
list of order values that `util.OrderGroups.groups()` keys represent
("compute the ordered, deduplicated list of order values"). -/
def insertOrderKey (x : ℚ) : List ℚ → List ℚ
  | [] => [x]
  | y :: ys => if x < y then x :: y :: ys else if x = y then y :: ys else y :: insertOrderKey x ys

/-- Modelled from the spec: the keys of `util.OrderGroups.groups()` —
the ordered, deduplicated order values present in the discovered
plugin set. -/
def orderGroupsKeys (ps : List Plugin) : List ℚ :=
  ps.foldr (fun p acc => insertOrderKey p.order acc) []

/-- The key listed right after `x` in the group keys: the loop at
control.py lines 237-244 (find `x`, then take the following key). -/
def nextAfterKey (x : ℚ) : List ℚ → Option ℚ
  | [] => none
  | y :: ys => if y = x then ys.head? else nextAfterKey x ys

/-- `Controller.reset_variables` (control.py lines 60-101).
`OrderGroups` is modelled from the spec as computed over the
discovered plugin set.  `plugin_groups_keys[0]` raises an uncaught
`IndexError` when the group key list is empty, embedded as
`Except.error`. -/
def reset_variables (host : Host) (c : Ctrl) : Except String Ctrl :=
  match orderGroupsKeys host.discovered with
  | [] => .error "IndexError: list index out of range"
  | k0 :: krest =>
    .ok { c with
      is_running := false, stopped := false, errored := false,
      gen := GenState.dead, current_pair := none,
      collectors_order := k0, collected := false,
      validators_order := host.validationOrder, validated := false,
      groupKeys := k0 :: krest,
      processing :=
        { stop_on_validation := false
          last_plugin_order := none
          current_order := some k0
          next_order := krest.head?
          nextOrder := none
          ordersWithError := (∅ : Finset ℚ) } }

/-- `Controller.stop` (control.py lines 187-188): sets the cooperative
flag and nothing else. -/
def stop (c : Ctrl) : Ctrl := { c with stopped := true }

/-- `Controller._process` (control.py lines 202-226): records the
order about to run in `processing["nextOrder"]`, invokes the plugin
via the host, adds the order to `ordersWithError` when the result
carries an error, and returns the result; when the plugin call itself
raises, re-raises `Exception("Unknown error(name): msg")` (returned as
`Except.error` together with the state mutated so far). -/
def _process (host : Host) (p : Plugin) (oi : Option Instance) (c : Ctrl) :
    Ctrl × Except String ProcResult :=
  let c1 := { c with processing := { c.processing with nextOrder := some p.order } }
  match host.runPlugin p oi c.context with
  | .error e => (c1, .error ("Unknown error(" ++ p.name ++ "): " ++ e))
  | .ok (ctx', err) =>
    let c2 := { c1 with
      context := ctx',
      processing := { c1.processing with
        ordersWithError :=
          if err.isSome then insert p.order c1.processing.ordersWithError
          else c1.processing.ordersWithError } }
    (c2, .ok { plugin := p, inst := oi, error := err })

/-- Machine state of one run: the Controller plus the host's pending
plan to call `stop()` after that many more processed pairs (the
external intervention at the suspension point between pairs). -/
structure MState where
  c : Ctrl
  pending : Option Nat
deriving DecidableEq

/-- The host's `stop()` intervention: right after a `was_processed`
emission (the `defer(10, on_next)` gap), a pending plan counts down;
at zero the cooperative flag is set. -/
def noteProcessed (m : MState) : MState :=
  match m.pending with
  | none => m
  | some n => if n ≤ 1 then ⟨{ m.c with stopped := true }, none⟩ else ⟨m.c, some (n - 1)⟩

/-- One yielded pair, as driven by `on_next`/`on_process`:
`current_pair` is set, `about_to_process` emitted, then `_process`
runs.  On success `was_processed` is emitted, `current_error`
recorded, and the stop intervention point passes; on a raise the pair
events stop after `about_to_process` and the fault message is
returned. -/
def yieldPair (host : Host) (p : Plugin) (oi : Option Instance) (m : MState) :
    MState × List Event × Option String :=
  let c0 := { m.c with current_pair := some (some p, oi) }
  match _process host p oi c0 with
  | (c1, .error msg) => (⟨c1, m.pending⟩, [Event.about_to_process p oi], some msg)
  | (c1, .ok r) =>
    let c2 := { c1 with
      current_error := if r.error.isSome then r.error else c1.current_error }
    (noteProcessed ⟨c2, m.pending⟩,
     [Event.about_to_process p oi, Event.was_processed r], none)

/-- How one command run ends: `finished fault` when the
`on_finished` callback chain was invoked (with `fault = some msg` when
it was reached through `on_unexpected_error`), `quietStop` when a
`StopIteration` was caught while `self.stopped` was set — `on_next`
then returns without any further notification. -/
inductive RunEnd where
  | finished (fault : Option String)
  | quietStop
deriving DecidableEq

/-- The events the `on_finished` callback emits: `publish` binds it to
`Controller.on_finished` (emitting `was_finished`, control.py lines
184-185, 375); `collect` and `validate` leave the default no-op. -/
def finishEvents (fin : Bool) : List Event := if fin then [Event.was_finished] else []

/-- `on_next`'s `StopIteration` handling (control.py lines 304-316):
the generator is dead.  On the very first pull (`current_pair is
None`) `next(gen, (None, None))` swallows the exception and the
`(None, None)` sentinel path defers `on_finished`; otherwise
`is_running` is cleared and, when a stop request is pending, `on_next`
returns silently, else `on_finished` is deferred. -/
def stopIterEnd (fin : Bool) (m : MState) : MState × List Event × RunEnd :=
  let c := { m.c with gen := GenState.dead }
  if c.current_pair = none then
    (⟨{ c with current_pair := some (none, none) }, m.pending⟩,
     finishEvents fin, RunEnd.finished none)
  else
    let c2 := { c with is_running := false }
    if c2.stopped then (⟨c2, m.pending⟩, [], RunEnd.quietStop)
    else (⟨c2, m.pending⟩, finishEvents fin, RunEnd.finished none)

/-- `on_next`'s `except Exception` branch (control.py lines 318-325):
a non-`StopIteration` exception out of the generator kills it,
`is_running` is cleared, `current_pair` becomes the sentinel, and
`on_unexpected_error` prints the fault then defers `on_finished`. -/
def genRaiseEnd (fin : Bool) (msg : String) (m : MState) : MState × List Event × RunEnd :=
  (⟨{ m.c with gen := GenState.dead, is_running := false,
               current_pair := some (none, none) }, m.pending⟩,
   [Event.u_print msg] ++ finishEvents fin, RunEnd.finished (some msg))

/-- `on_process`'s `except Exception` branch (control.py lines
344-349) followed by `on_unexpected_error`: the fault is printed and
`on_finished` deferred; `is_running` and `current_pair` are left as
they are and the generator stays suspended where it was. -/
def faultEnd (fin : Bool) (m : MState) (msg : String) (pre : List Event) :
    MState × List Event × RunEnd :=
  (m, pre ++ [Event.u_print msg] ++ finishEvents fin, RunEnd.finished (some msg))

/-- The outcome of the per-plugin gate checks of `_pair_yielder`
(control.py lines 229-296), before any pair of that plugin is
yielded. -/
inductive PluginGate where
  | stopIter (c : Ctrl)
  | raised (c : Ctrl) (msg : String)
  | skip (c : Ctrl)
  | instLoop (c : Ctrl) (insts : List Instance)
  | ctxYield (c : Ctrl)
deriving DecidableEq

/-- Does the plugin's order pass the current group cursor
(control.py lines 230-233)? -/
def crossesGroup (c : Ctrl) (p : Plugin) : Bool :=
  match c.processing.current_order with
  | none => false
  | some co => decide (co < p.order)

/-- Advance the group cursor (control.py lines 234-247): the current
order becomes the old `next_order`, and the new `next_order` is the
group key listed right after it. -/
def advanceGroup (c : Ctrl) : Ctrl :=
  let nco := c.processing.next_order
  let nno := match nco with
             | none => none
             | some v => nextAfterKey v c.groupKeys
  { c with processing := { c.processing with current_order := nco, next_order := nno } }

/-- The group-crossing block at the top of the `_pair_yielder` loop
body (control.py lines 230-249): advance the cursor and emit
`passed_group` when the plugin's order passes it. -/
def gateCross (p : Plugin) (c0 : Ctrl) : Ctrl × List Event :=
  if crossesGroup c0 p then (advanceGroup c0, [Event.passed_group]) else (c0, [])

/-- The rest of the `_pair_yielder` loop body for one plugin, up to
(but not including) its yields: the `Collected` gate, the `Validated`
gate, the stop flag, the registered test, the `last_plugin_order`
note, the `active` skip, and the branch selection between the
per-instance loop and the context-level pair (control.py lines
251-296). -/
def gateDecide (host : Host) (p : Plugin) (c1 : Ctrl) : PluginGate :=
  if !c1.collected && decide (c1.collectors_order < p.order) then
    PluginGate.stopIter { c1 with collected := true }
  else
    let c2 := if !c1.validated && decide (c1.validators_order < p.order) then
                { c1 with validated := true } else c1
    if !c1.validated && decide (c1.validators_order < p.order)
        && c1.processing.stop_on_validation then
      PluginGate.stopIter c2
    else if c2.stopped then
      PluginGate.stopIter c2
    else
      let c3 := { c2 with processing := { c2.processing with nextOrder := some p.order } }
      match host.test c3.processing with
      | .error msg => PluginGate.raised c3 msg
      | .ok msg =>
        if msg ≠ "" then PluginGate.stopIter c3
        else
          let c4 := { c3 with processing :=
                        { c3.processing with last_plugin_order := some p.order } }
          if !p.active then PluginGate.skip c4
          else if p.instanceEnabled then
            PluginGate.instLoop c4 (instances_by_plugin c4.context p)
          else if plugin_matches_families p (collect_families_from_instances c4.context) then
            PluginGate.ctxYield c4
          else PluginGate.skip c4

/-- The `_pair_yielder` loop body for one plugin, up to (but not
including) its yields: the crossing block followed by the gate
checks (control.py lines 229-296). -/
def pluginGate (host : Host) (p : Plugin) (c0 : Ctrl) : PluginGate × List Event :=
  (gateDecide host p (gateCross p c0).1, (gateCross p c0).2)

/-- How the inner per-instance loop of `_pair_yielder` (control.py
lines 277-287) left off: completed, or the run was ended by a
processing fault with the generator suspended before `rest`. -/
inductive InstLoopEnd where
  | completed
  | faulted (msg : String) (rest : List Instance)
deriving DecidableEq

/-- The inner per-instance loop, fused with the processing of each
yielded pair: instances whose `publish` data is `False` are skipped
individually; the stop flag and the test are not consulted here. -/
def runInstLoop (host : Host) (p : Plugin) :
    List Instance → MState → MState × List Event × InstLoopEnd
  | [], m => (m, [], InstLoopEnd.completed)
  | i :: rest, m =>
    if i.publish = some false then runInstLoop host p rest m
    else
      match yieldPair host p (some i) m with
      | (m1, evs, some msg) => (m1, evs, InstLoopEnd.faulted msg rest)
      | (m1, evs, none) =>
        let next := runInstLoop host p rest m1
        (next.1, evs ++ next.2.1, next.2.2)

/-- Prefix the already-emitted events onto a run tail. -/
def prependEvents (pre : List Event) :
    MState × List Event × RunEnd → MState × List Event × RunEnd
  | (m, evs, re) => (m, pre ++ evs, re)

/-- The run loop over the remaining plugins: each head plugin goes
through `pluginGate`; a raised `StopIteration` or exception ends the
run through the corresponding `on_next` handler, a fault while
processing a yielded pair ends it through `on_process`'s handler with
the generator left suspended, and otherwise the loop continues.  An
exhausted plugin list is the generator returning, i.e. a plain
`StopIteration` at the next pull. -/
def runPlugins (host : Host) (fin : Bool) :
    List Plugin → MState → MState × List Event × RunEnd
  | [], m => stopIterEnd fin m
  | p :: ps, m =>
    match pluginGate host p m.c with
    | (PluginGate.stopIter c1, evs) =>
      prependEvents evs (stopIterEnd fin ⟨c1, m.pending⟩)
    | (PluginGate.raised c1 msg, evs) =>
      prependEvents evs (genRaiseEnd fin msg ⟨c1, m.pending⟩)
    | (PluginGate.skip c1, evs) =>
      prependEvents evs (runPlugins host fin ps ⟨c1, m.pending⟩)
    | (PluginGate.instLoop c1 insts, evs) =>
      match runInstLoop host p insts ⟨c1, m.pending⟩ with
      | (m5, evs5, InstLoopEnd.completed) =>
        prependEvents (evs ++ evs5) (runPlugins host fin ps m5)
      | (m5, evs5, InstLoopEnd.faulted msg rest) =>
        faultEnd fin ⟨{ m5.c with gen := GenState.inInsts p rest ps }, m5.pending⟩
          msg (evs ++ evs5)
    | (PluginGate.ctxYield c1, evs) =>
      match yieldPair host p none ⟨c1, m.pending⟩ with
      | (m5, evs5, some msg) =>
        faultEnd fin ⟨{ m5.c with gen := GenState.atPlugins ps }, m5.pending⟩
          msg (evs ++ evs5)
      | (m5, evs5, none) =>
        prependEvents (evs ++ evs5) (runPlugins host fin ps m5)

/-- `Controller.iterate_and_process` (control.py lines 299-359):
marks the run as running and drives `on_next`/`on_process` through the
deferred-callback chain until the run ends.  `fin` tells whether the
`on_finished` callback emits `was_finished` (only `publish` binds
it). -/
def iterate_and_process (host : Host) (fin : Bool) (c : Ctrl) :
    Ctrl × List Event × RunEnd :=
  let c0 := { c with is_running := true }
  let m0 : MState := ⟨c0, host.stopAfter⟩
  let out :=
    match c0.gen with
    | GenState.atPlugins ps => runPlugins host fin ps m0
    | GenState.inInsts p irest ps =>
      match runInstLoop host p irest m0 with
      | (m5, evs5, InstLoopEnd.completed) =>
        prependEvents evs5 (runPlugins host fin ps m5)
      | (m5, evs5, InstLoopEnd.faulted msg rest) =>
        faultEnd fin ⟨{ m5.c with gen := GenState.inInsts p rest ps }, m5.pending⟩
          msg evs5
    | GenState.dead => stopIterEnd fin m0
  (out.1.c, out.2.1, out.2.2)

/-- `Controller.collect` (control.py lines 361-365). -/
def collect (host : Host) (c : Ctrl) : Ctrl × List Event × RunEnd :=
  iterate_and_process host false c

/-- `Controller.validate` (control.py lines 367-370): sets
`stop_on_validation` and resumes the same generator. -/
def validate (host : Host) (c : Ctrl) : Ctrl × List Event × RunEnd :=
  iterate_and_process host false
    { c with processing := { c.processing with stop_on_validation := true } }

/-- `Controller.publish` (control.py lines 372-375): clears
`stop_on_validation` and binds `on_finished` (which emits
`was_finished`). -/
def publish (host : Host) (c : Ctrl) : Ctrl × List Event × RunEnd :=
  iterate_and_process host true
    { c with processing := { c.processing with stop_on_validation := false } }

/-- `Controller.reset` (control.py lines 158-173): rebuild the
Context, reset the variables (an `IndexError` there propagates),
reload the plugins, install a fresh `_pair_yielder`, emit `was_reset`,
then run collection. -/
def reset (host : Host) (c : Ctrl) : Except String (Ctrl × List Event × RunEnd) :=
  match reset_variables host { c with context := [] } with
  | .error e => .error e
  | .ok c1 =>
    let c2 := { c1 with plugins := host.discovered,
                        gen := GenState.atPlugins host.discovered }
    let out := collect host c2
    .ok (out.1, Event.was_reset :: out.2.1, out.2.2)

/-! ## Observations over emitted event traces -/

/-- The pairs announced by `about_to_process`, in emission order. -/
def pairEvents (evs : List Event) : List (Plugin × Option Instance) :=
  evs.filterMap fun e => match e with
    | Event.about_to_process p i => some (p, i)
    | _ => none

/-- The plugin order attached to a pair event (`about_to_process` or
`was_processed`), if any. -/
def eventOrder : Event → Option ℚ
  | Event.about_to_process p _ => some p.order
  | Event.was_processed r => some r.plugin.order
  | _ => none

/-- The plugin orders of all pair events, in emission order. -/
def emittedOrders (evs : List Event) : List ℚ :=
  evs.filterMap eventOrder

/-- Is this the `was_finished` notification? -/
def isFinishedEv : Event → Bool
  | Event.was_finished => true
  | _ => false

/-- How many times `was_finished` was emitted. -/
def finishedCount (evs : List Event) : Nat :=
  (evs.filter isFinishedEv).length

/-- Well-formedness of a generator position: a position suspended
inside the per-instance loop belongs to a plugin that passed the
`active` gate.  Every position the Controller actually reaches
satisfies this (`reset` installs `atPlugins`, and the loop is entered
only after the gate). -/
def genWF : GenState → Bool
  | GenState.inInsts p _ _ => p.active
  | _ => true

/-! ## Concrete fixtures (used by counterexamples and witnesses) -/

/-- A collector: order 0, context-level, wildcard families. -/
def collectA : Plugin := ⟨"CollectA", 0, true, false, ["*"]⟩

/-- A validator: order 1, per-instance, wildcard families. -/
def validateA : Plugin := ⟨"ValidateA", 1, true, true, ["*"]⟩

/-- An order-0 per-instance plugin. -/
def pluginP : Plugin := ⟨"P", 0, true, true, ["*"]⟩

/-- An order-0 context-level plugin. -/
def pluginQ : Plugin := ⟨"Q", 0, true, false, ["*"]⟩

/-- An order-0 context-level plugin whose processing raises. -/
def pluginB : Plugin := ⟨"B", 0, true, false, ["*"]⟩

/-- An order-0 context-level plugin (fault fixture companion). -/
def pluginA0 : Plugin := ⟨"A", 0, true, false, ["*"]⟩

/-- An instance with `publish = True`. -/
def instX : Instance := ⟨"X", ["geo"], some true⟩

/-- A second instance with `publish = True`. -/
def instY : Instance := ⟨"Y", ["geo"], some true⟩

/-- A pristine Controller as after construction, before any reset. -/
def ctrl0 : Ctrl where
  context := []
  plugins := []
  is_running := false
  stopped := false
  errored := false
  collectors_order := 0
  collected := false
  validators_order := 0
  validated := false
  processing := ⟨false, none, none, none, none, (∅ : Finset ℚ)⟩
  gen := GenState.dead
  current_pair := none
  current_error := none
  groupKeys := []

/-- A benign plugin behavior: `CollectA` adds `instX` to the Context,
everything else succeeds without touching it. -/
def benignRun (p : Plugin) (_ : Option Instance) (ctx : List Instance) :
    Except String (List Instance × Option String) :=
  if p.name = "CollectA" then .ok (ctx ++ [instX], none) else .ok (ctx, none)

/-- The scenario host of the spec: `CollectA` then the per-instance
`ValidateA`, benign behaviors, a never-firing test, validation order
2. -/
def hostMain : Host :=
  { runPlugin := benignRun
    test := fun _ => .ok ""
    stopAfter := none
    discovered := [collectA, validateA]
    validationOrder := 2 }

/-- A host whose registry discovers no plugin at all. -/
def hostEmpty : Host :=
  { hostMain with discovered := [] }

/-- A host whose plugin processing always raises. -/
def hostFaultB : Host :=
  { runPlugin := fun _ _ _ => .error "boom"
    test := fun _ => .ok ""
    stopAfter := none
    discovered := [pluginB]
    validationOrder := 2 }

/-- A host where `A`'s processing raises (leaving the generator
suspended before `B`) and whose registered test reports `"halt"`
whenever `stop_on_validation` is set — benign during collect, firing
during validate. -/
def hostHalt : Host :=
  { runPlugin := fun p _ ctx =>
      if p.name = "A" then .error "boom" else .ok (ctx, none)
    test := fun st => if st.stop_on_validation then .ok "halt" else .ok ""
    stopAfter := none
    discovered := [pluginA0, pluginB]
    validationOrder := 2 }

/-- A host that calls `stop()` at the suspension point right after the
first processed pair. -/
def hostStopper : Host :=
  { runPlugin := fun _ _ ctx => .ok (ctx, none)
    test := fun _ => .ok ""
    stopAfter := some 1
    discovered := []
    validationOrder := 2 }

/-- The Controller state after a successful `reset`, or the input
state unchanged when reset raised. -/
def afterReset (h : Host) (c : Ctrl) : Ctrl :=
  match reset h c with
  | .ok out => out.1
  | .error _ => c

/-- The events of a `reset` (including its collect run), or `[]` when
reset raised. -/
def resetEvents (h : Host) (c : Ctrl) : List Event :=
  match reset h c with
  | .ok out => out.2.1
  | .error _ => []

/-! ## Structural lemmas about the gate, one pair, and the inner loop -/

/-- The Controller carried by a gate outcome. -/
def PluginGate.ctrl : PluginGate → Ctrl
  | PluginGate.stopIter c => c
  | PluginGate.raised c _ => c
  | PluginGate.skip c => c
  | PluginGate.instLoop c _ => c
  | PluginGate.ctxYield c => c

theorem advanceGroup_stopped (c : Ctrl) : (advanceGroup c).stopped = c.stopped := rfl

theorem advanceGroup_collected (c : Ctrl) : (advanceGroup c).collected = c.collected := rfl

theorem advanceGroup_current_pair (c : Ctrl) :
    (advanceGroup c).current_pair = c.current_pair := rfl

theorem advanceGroup_collectors_order (c : Ctrl) :
    (advanceGroup c).collectors_order = c.collectors_order := rfl

theorem advanceGroup_stop_on_validation (c : Ctrl) :
    (advanceGroup c).processing.stop_on_validation = c.processing.stop_on_validation := rfl

/-- The crossing block emits at most the `passed_group`
notification. -/
theorem gateCross_events (p : Plugin) (c : Ctrl) :
    (gateCross p c).2 = [] ∨ (gateCross p c).2 = [Event.passed_group] := by
  unfold gateCross
  split
  · exact Or.inr rfl
  · exact Or.inl rfl

theorem gateCross_stopped (p : Plugin) (c : Ctrl) :
    (gateCross p c).1.stopped = c.stopped := by
  unfold gateCross; split <;> rfl

theorem gateCross_current_pair (p : Plugin) (c : Ctrl) :
    (gateCross p c).1.current_pair = c.current_pair := by
  unfold gateCross; split <;> rfl

theorem gateCross_collected (p : Plugin) (c : Ctrl) :
    (gateCross p c).1.collected = c.collected := by
  unfold gateCross; split <;> rfl

theorem gateCross_collectors_order (p : Plugin) (c : Ctrl) :
    (gateCross p c).1.collectors_order = c.collectors_order := by
  unfold gateCross; split <;> rfl

theorem gateCross_stop_on_validation (p : Plugin) (c : Ctrl) :
    (gateCross p c).1.processing.stop_on_validation = c.processing.stop_on_validation := by
  unfold gateCross; split <;> rfl

/-- Every gate-check outcome carries a Controller with the stop flag
and `current_pair` unchanged. -/
theorem gateDecide_core (host : Host) (p : Plugin) (c : Ctrl) :
    (gateDecide host p c).ctrl.stopped = c.stopped ∧
    (gateDecide host p c).ctrl.current_pair = c.current_pair ∧
    (gateDecide host p c).ctrl.collectors_order = c.collectors_order := by
  unfold gateDecide
  dsimp only
  repeat' split
  all_goals exact ⟨rfl, rfl, rfl⟩

theorem gateDecide_skip_inv (host : Host) (p : Plugin) (c c' : Ctrl)
    (h : gateDecide host p c = PluginGate.skip c') :
    c'.collected = c.collected ∧ c'.collectors_order = c.collectors_order ∧
    c'.stopped = c.stopped ∧ c'.current_pair = c.current_pair ∧
    c'.context = c.context ∧
    (c.collected = false → p.order ≤ c.collectors_order) := by
  unfold gateDecide at h
  dsimp only at h
  repeat' split at h
  all_goals first
    | exact PluginGate.noConfusion h
    | (injection h with h'
       subst h'
       refine ⟨rfl, rfl, rfl, rfl, rfl, ?_⟩
       intro hc
       first
         | (simp_all
            exact le_of_not_lt (by simp_all))
         | simp_all)

theorem gateDecide_instLoop_inv (host : Host) (p : Plugin) (c c' : Ctrl)
    (insts : List Instance)
    (h : gateDecide host p c = PluginGate.instLoop c' insts) :
    c'.collected = c.collected ∧ c'.collectors_order = c.collectors_order ∧
    c'.stopped = c.stopped ∧ c'.current_pair = c.current_pair ∧
    c'.context = c.context ∧ p.active = true ∧
    insts = instances_by_plugin c.context p ∧
    (c.collected = false → p.order ≤ c.collectors_order) := by
  unfold gateDecide at h
  dsimp only at h
  repeat' split at h
  all_goals first
    | exact PluginGate.noConfusion h
    | (injection h with h1 h2
       subst h1
       subst h2
       refine ⟨rfl, rfl, rfl, rfl, rfl, by simp_all, rfl, ?_⟩
       intro hc
       first
         | (simp_all
            exact le_of_not_lt (by simp_all))
         | simp_all)

theorem gateDecide_ctxYield_inv (host : Host) (p : Plugin) (c c' : Ctrl)
    (h : gateDecide host p c = PluginGate.ctxYield c') :
    c'.collected = c.collected ∧ c'.collectors_order = c.collectors_order ∧
    c'.stopped = c.stopped ∧ c'.current_pair = c.current_pair ∧
    c'.context = c.context ∧ p.active = true ∧
    (c.collected = false → p.order ≤ c.collectors_order) := by
  unfold gateDecide at h
  dsimp only at h
  repeat' split at h
  all_goals first
    | exact PluginGate.noConfusion h
    | (injection h with h'
       subst h'
       refine ⟨rfl, rfl, rfl, rfl, rfl, by simp_all, ?_⟩
       intro hc
       first
         | (simp_all
            exact le_of_not_lt (by simp_all))
         | simp_all)

theorem gateDecide_stopIter_inv (host : Host) (p : Plugin) (c c' : Ctrl)
    (h : gateDecide host p c = PluginGate.stopIter c') :
    c'.stopped = c.stopped ∧ c'.current_pair = c.current_pair := by
  have hc := gateDecide_core host p c
  rw [h] at hc
  exact ⟨hc.1, hc.2.1⟩

theorem gateDecide_raised_inv (host : Host) (p : Plugin) (c c' : Ctrl) (msg : String)
    (h : gateDecide host p c = PluginGate.raised c' msg) :
    host.test c'.processing = Except.error msg := by
  unfold gateDecide at h
  dsimp only at h
  repeat' split at h
  all_goals first
    | exact PluginGate.noConfusion h
    | (injection h with h1 h2
       subst h1
       subst h2
       simp_all)

theorem gateDecide_of_stopped (host : Host) (p : Plugin) (c : Ctrl)
    (h : c.stopped = true) :
    ∃ c', gateDecide host p c = PluginGate.stopIter c' ∧
      c'.stopped = true ∧ c'.current_pair = c.current_pair := by
  unfold gateDecide
  dsimp only
  repeat' split
  all_goals first
    | exact ⟨_, rfl, h, rfl⟩
    | simp_all

theorem gateDecide_test_stop (host : Host) (p : Plugin) (c : Ctrl)
    (hs : c.stopped = false)
    (ht : ∀ st, ∃ m, host.test st = Except.ok m ∧ m ≠ "") :
    ∃ c', gateDecide host p c = PluginGate.stopIter c' ∧
      c'.stopped = false ∧ c'.current_pair = c.current_pair := by
  unfold gateDecide
  dsimp only
  by_cases h1 : (!c.collected && decide (c.collectors_order < p.order)) = true
  · rw [if_pos h1]
    exact ⟨_, rfl, hs, rfl⟩
  · rw [if_neg h1]
    by_cases hval : (!c.validated && decide (c.validators_order < p.order)) = true
    · rw [if_pos hval]
      by_cases hsov : c.processing.stop_on_validation = true
      · rw [if_pos (by rw [Bool.and_eq_true]; exact ⟨hval, hsov⟩)]
        exact ⟨_, rfl, hs, rfl⟩
      · rw [if_neg (by simp [hsov])]
        rw [if_neg (by simp [hs])]
        obtain ⟨m, hm, hne⟩ := ht _
        rw [hm]
        dsimp only
        rw [if_pos hne]
        exact ⟨_, rfl, hs, rfl⟩
    · rw [if_neg hval]
      rw [if_neg (by simp [hval])]
      rw [if_neg (by simp [hs])]
      obtain ⟨m, hm, hne⟩ := ht _
      rw [hm]
      dsimp only
      rw [if_pos hne]
      exact ⟨_, rfl, hs, rfl⟩

theorem _process_ok_inv (host : Host) (p : Plugin) (oi : Option Instance)
    (c c' : Ctrl) (r : ProcResult)
    (h : _process host p oi c = (c', Except.ok r)) :
    r.plugin = p ∧ r.inst = oi := by
  unfold _process at h
  dsimp only at h
  split at h
  · simp only [Prod.mk.injEq] at h
    exact absurd h.2 (by simp)
  · simp only [Prod.mk.injEq, Except.ok.injEq] at h
    rw [← h.2]
    exact ⟨rfl, rfl⟩

theorem yieldPair_spec (host : Host) (p : Plugin) (oi : Option Instance) (m : MState) :
    (∃ m1 msg, yieldPair host p oi m = (m1, [Event.about_to_process p oi], some msg)) ∨
    (∃ m1 r, yieldPair host p oi m =
      (m1, [Event.about_to_process p oi, Event.was_processed r], none) ∧
      r.plugin = p ∧ r.inst = oi) := by
  unfold yieldPair
  dsimp only
  split
  · left; exact ⟨_, _, rfl⟩
  · rename_i c1 r heq
    obtain ⟨h1, h2⟩ := _process_ok_inv host p oi _ c1 r heq
    right
    exact ⟨_, r, rfl, h1, h2⟩

theorem _process_frame (host : Host) (p : Plugin) (oi : Option Instance) (c : Ctrl) :
    (_process host p oi c).1.collected = c.collected ∧
    (_process host p oi c).1.collectors_order = c.collectors_order ∧
    (_process host p oi c).1.stopped = c.stopped := by
  unfold _process
  dsimp only
  split <;> exact ⟨rfl, rfl, rfl⟩

theorem noteProcessed_frame (m : MState) :
    (noteProcessed m).c.collected = m.c.collected ∧
    (noteProcessed m).c.collectors_order = m.c.collectors_order ∧
    (m.pending = none → noteProcessed m = m) := by
  unfold noteProcessed
  split
  · exact ⟨rfl, rfl, fun _ => rfl⟩
  · split <;> exact ⟨rfl, rfl, fun h => by simp_all⟩

theorem yieldPair_frame (host : Host) (p : Plugin) (oi : Option Instance) (m : MState) :
    (yieldPair host p oi m).1.c.collected = m.c.collected ∧
    (yieldPair host p oi m).1.c.collectors_order = m.c.collectors_order ∧
    (m.pending = none → (yieldPair host p oi m).1.pending = none ∧
      (yieldPair host p oi m).1.c.stopped = m.c.stopped) := by
  unfold yieldPair
  dsimp only
  have hf := _process_frame host p oi { m.c with current_pair := some (some p, oi) }
  split
  · rename_i c1 msg heq
    rw [heq] at hf
    exact ⟨hf.1, hf.2.1, fun hp2 => ⟨hp2, hf.2.2⟩⟩
  · rename_i c1 r heq
    rw [heq] at hf
    dsimp only at hf ⊢
    have hn := noteProcessed_frame
      ⟨{ c1 with current_error := if r.error.isSome then r.error else c1.current_error },
        m.pending⟩
    refine ⟨hn.1.trans hf.1, hn.2.1.trans hf.2.1, fun hp => ?_⟩
    rw [hn.2.2 hp]
    exact ⟨hp, hf.2.2⟩

theorem runInstLoop_events (host : Host) (p : Plugin) (irest : List Instance)
    (m : MState) :
    ∀ e ∈ (runInstLoop host p irest m).2.1,
      (∃ i, e = Event.about_to_process p (some i) ∧ ¬ i.publish = some false) ∨
      (∃ r, e = Event.was_processed r ∧ r.plugin = p ∧
        ∃ i, r.inst = some i ∧ ¬ i.publish = some false) := by
  induction irest generalizing m with
  | nil => intro e he; simp [runInstLoop] at he
  | cons i rest ih =>
    intro e he
    rw [runInstLoop] at he
    split at he
    · exact ih m e he
    · rename_i hpub
      rcases yieldPair_spec host p (some i) m with ⟨m1, msg, hyp⟩ | ⟨m1, r, hyp, hr1, hr2⟩ <;>
        rw [hyp] at he <;> dsimp only at he
      · rcases List.mem_singleton.mp he with rfl
        exact Or.inl ⟨i, rfl, hpub⟩
      · rcases (List.mem_append.mp he) with h | h
        · rcases h with _ | ⟨_, h⟩
          · exact Or.inl ⟨i, rfl, hpub⟩
          · rcases List.mem_singleton.mp h with rfl
            exact Or.inr ⟨r, rfl, hr1, i, hr2, hpub⟩
        · exact ih m1 e h

theorem runInstLoop_frame (host : Host) (p : Plugin) (irest : List Instance)
    (m : MState) :
    (runInstLoop host p irest m).1.c.collected = m.c.collected ∧
    (runInstLoop host p irest m).1.c.collectors_order = m.c.collectors_order ∧
    (m.pending = none → (runInstLoop host p irest m).1.pending = none ∧
      (runInstLoop host p irest m).1.c.stopped = m.c.stopped) := by
  induction irest generalizing m with
  | nil => exact ⟨rfl, rfl, fun hp => ⟨hp, rfl⟩⟩
  | cons i rest ih =>
    rw [runInstLoop]
    split
    · exact ih m
    · split
      · rename_i m1 evs msg heq
        have hf := yieldPair_frame host p (some i) m
        rw [heq] at hf
        exact hf
      · rename_i m1 evs heq
        have hf := yieldPair_frame host p (some i) m
        rw [heq] at hf
        dsimp only
        obtain ⟨h1, h2, h3⟩ := ih m1
        refine ⟨h1.trans hf.1, h2.trans hf.2.1, fun hp => ?_⟩
        obtain ⟨hp1, hp2⟩ := hf.2.2 hp
        obtain ⟨hq1, hq2⟩ := (ih m1).2.2 hp1
        exact ⟨hq1, hq2.trans hp2⟩

/-! ## Run-level lemmas -/

/-- How many `was_finished` emissions a run end accounts for. -/
def endCount (fin : Bool) : RunEnd → Nat
  | RunEnd.finished _ => if fin then 1 else 0
  | RunEnd.quietStop => 0

theorem finishedCount_append (a b : List Event) :
    finishedCount (a ++ b) = finishedCount a + finishedCount b := by
  simp [finishedCount, List.filter_append]

theorem emittedOrders_append (a b : List Event) :
    emittedOrders (a ++ b) = emittedOrders a ++ emittedOrders b := by
  simp [emittedOrders]

theorem pairEvents_append (a b : List Event) :
    pairEvents (a ++ b) = pairEvents a ++ pairEvents b := by
  simp [pairEvents]

theorem finishEvents_count (fin : Bool) :
    finishedCount (finishEvents fin) = if fin then 1 else 0 := by
  cases fin <;> rfl

theorem finishEvents_no_stopped (fin : Bool) :
    Event.was_stopped ∉ finishEvents fin := by
  cases fin <;> simp [finishEvents]

theorem finishEvents_orders (fin : Bool) :
    emittedOrders (finishEvents fin) = [] := by
  cases fin <;> rfl

theorem finishEvents_pairs (fin : Bool) :
    pairEvents (finishEvents fin) = [] := by
  cases fin <;> rfl

theorem stopIterEnd_rend (fin : Bool) (m : MState) :
    (stopIterEnd fin m).2.2 = RunEnd.finished none ∨
    (stopIterEnd fin m).2.2 = RunEnd.quietStop := by
  unfold stopIterEnd
  dsimp only
  repeat' split
  all_goals simp

theorem stopIterEnd_events (fin : Bool) (m : MState) :
    (stopIterEnd fin m).2.1 = finishEvents fin ∨ (stopIterEnd fin m).2.1 = [] := by
  unfold stopIterEnd
  dsimp only
  repeat' split
  all_goals simp

theorem stopIterEnd_count (fin : Bool) (m : MState) :
    finishedCount (stopIterEnd fin m).2.1 = endCount fin (stopIterEnd fin m).2.2 := by
  unfold stopIterEnd
  dsimp only
  repeat' split
  all_goals simp [endCount, finishedCount]
  all_goals cases fin <;> rfl

theorem stopIterEnd_not_quiet (fin : Bool) (m : MState) (hs : m.c.stopped = false) :
    (stopIterEnd fin m).2.2 = RunEnd.finished none := by
  unfold stopIterEnd
  dsimp only
  repeat' split
  all_goals simp_all

theorem gateEvents_shape (host : Host) (p : Plugin) (c : Ctrl) :
    (pluginGate host p c).2 = [] ∨ (pluginGate host p c).2 = [Event.passed_group] := by
  unfold pluginGate
  exact gateCross_events p c

theorem gateEvents_no_stopped (host : Host) (p : Plugin) (c : Ctrl) :
    Event.was_stopped ∉ (pluginGate host p c).2 := by
  rcases gateEvents_shape host p c with h | h <;> rw [h] <;> simp

theorem gateEvents_count (host : Host) (p : Plugin) (c : Ctrl) :
    finishedCount (pluginGate host p c).2 = 0 := by
  rcases gateEvents_shape host p c with h | h <;> rw [h] <;> rfl

theorem gateEvents_orders (host : Host) (p : Plugin) (c : Ctrl) :
    emittedOrders (pluginGate host p c).2 = [] := by
  rcases gateEvents_shape host p c with h | h <;> rw [h] <;> rfl

theorem gateEvents_pairs (host : Host) (p : Plugin) (c : Ctrl) :
    pairEvents (pluginGate host p c).2 = [] := by
  rcases gateEvents_shape host p c with h | h <;> rw [h] <;> rfl

theorem runInstLoop_no_stopped (host : Host) (p : Plugin) (irest : List Instance)
    (m : MState) :
    Event.was_stopped ∉ (runInstLoop host p irest m).2.1 := by
  intro hmem
  rcases runInstLoop_events host p irest m _ hmem with ⟨i, heq, _⟩ | ⟨r, heq, _⟩ <;>
    exact Event.noConfusion heq

theorem runInstLoop_count (host : Host) (p : Plugin) (irest : List Instance)
    (m : MState) :
    finishedCount (runInstLoop host p irest m).2.1 = 0 := by
  unfold finishedCount
  rw [List.length_eq_zero, List.filter_eq_nil]
  intro e he
  rcases runInstLoop_events host p irest m e he with ⟨i, heq, _⟩ | ⟨r, heq, _⟩ <;>
    subst heq <;> simp [isFinishedEv]

theorem runInstLoop_orders (host : Host) (p : Plugin) (irest : List Instance)
    (m : MState) :
    ∀ x ∈ emittedOrders (runInstLoop host p irest m).2.1, x = p.order := by
  intro x hx
  rcases List.mem_filterMap.mp hx with ⟨e, he, hord⟩
  rcases runInstLoop_events host p irest m e he with ⟨i, heq, _⟩ | ⟨r, heq, hp, _⟩
  · subst heq
    simp [eventOrder] at hord
    exact hord.symm
  · subst heq
    simp [eventOrder] at hord
    rw [← hord, hp]

theorem prependEvents_events (pre : List Event) (out : MState × List Event × RunEnd) :
    (prependEvents pre out).2.1 = pre ++ out.2.1 := by
  rcases out with ⟨m, evs, re⟩; rfl

theorem prependEvents_rend (pre : List Event) (out : MState × List Event × RunEnd) :
    (prependEvents pre out).2.2 = out.2.2 := by
  rcases out with ⟨m, evs, re⟩; rfl

theorem prependEvents_mstate (pre : List Event) (out : MState × List Event × RunEnd) :
    (prependEvents pre out).1 = out.1 := by
  rcases out with ⟨m, evs, re⟩; rfl

theorem yieldPair_events_shape (host : Host) (p : Plugin) (oi : Option Instance)
    (m : MState) :
    (yieldPair host p oi m).2.1 = [Event.about_to_process p oi] ∨
    ∃ r, (yieldPair host p oi m).2.1 =
        [Event.about_to_process p oi, Event.was_processed r] ∧
      r.plugin = p ∧ r.inst = oi := by
  rcases yieldPair_spec host p oi m with ⟨m1, msg, h⟩ | ⟨m1, r, h, h1, h2⟩ <;> rw [h]
  · exact Or.inl rfl
  · exact Or.inr ⟨r, rfl, h1, h2⟩

/-- No branch of the run loop ever emits the `was_stopped`
notification. -/
theorem runPlugins_no_stopped (host : Host) (fin : Bool) :
    ∀ (ps : List Plugin) (m : MState),
      Event.was_stopped ∉ (runPlugins host fin ps m).2.1 := by
  intro ps
  induction ps with
  | nil =>
    intro m
    rw [runPlugins]
    rcases stopIterEnd_events fin m with h | h <;> rw [h]
    · exact finishEvents_no_stopped fin
    · simp
  | cons p ps ih =>
    intro m
    rw [runPlugins]
    rcases hg : pluginGate host p m.c with ⟨g, evs⟩
    have hevs : (pluginGate host p m.c).2 = evs := by rw [hg]
    cases g <;> dsimp only
    · rw [prependEvents_events]
      intro hmem
      rcases List.mem_append.mp hmem with h | h
      · exact gateEvents_no_stopped host p m.c (hevs ▸ h)
      · rcases stopIterEnd_events fin _ with he | he <;> rw [he] at h
        · exact finishEvents_no_stopped fin h
        · simp at h
    · rw [prependEvents_events]
      intro hmem
      rcases List.mem_append.mp hmem with h | h
      · exact gateEvents_no_stopped host p m.c (hevs ▸ h)
      · unfold genRaiseEnd at h
        dsimp only at h
        rcases List.mem_append.mp h with h | h
        · simp at h
        · exact finishEvents_no_stopped fin h
    · rw [prependEvents_events]
      intro hmem
      rcases List.mem_append.mp hmem with h | h
      · exact gateEvents_no_stopped host p m.c (hevs ▸ h)
      · exact ih _ h
    · rename_i c1 insts
      rcases hri : runInstLoop host p insts ⟨c1, m.pending⟩ with ⟨m5, evs5, lend⟩
      have hevs5 : (runInstLoop host p insts ⟨c1, m.pending⟩).2.1 = evs5 := by rw [hri]
      cases lend <;> dsimp only
      · rw [prependEvents_events]
        intro hmem
        rcases List.mem_append.mp hmem with h | h
        · rcases List.mem_append.mp h with h | h
          · exact gateEvents_no_stopped host p m.c (hevs ▸ h)
          · exact runInstLoop_no_stopped host p insts _ (hevs5 ▸ h)
        · exact ih _ h
      · unfold faultEnd
        dsimp only
        intro hmem
        rcases List.mem_append.mp hmem with h | h
        · rcases List.mem_append.mp h with h | h
          · rcases List.mem_append.mp h with h | h
            · exact gateEvents_no_stopped host p m.c (hevs ▸ h)
            · exact runInstLoop_no_stopped host p insts _ (hevs5 ▸ h)
          · simp at h
        · exact finishEvents_no_stopped fin h
    · rename_i c1
      rcases hyp : yieldPair host p none ⟨c1, m.pending⟩ with ⟨m5, evs5, fault⟩
      have hevs5 : (yieldPair host p none ⟨c1, m.pending⟩).2.1 = evs5 := by rw [hyp]
      cases fault <;> dsimp only
      · rw [prependEvents_events]
        intro hmem
        rcases List.mem_append.mp hmem with h | h
        · rcases List.mem_append.mp h with h | h
          · exact gateEvents_no_stopped host p m.c (hevs ▸ h)
          · have hsh := yieldPair_events_shape host p none ⟨c1, m.pending⟩
            rw [hyp] at hsh
            dsimp only at hsh
            rcases hsh with hsh | ⟨r, hsh, _, _⟩ <;> rw [hsh] at h <;> simp at h
        · exact ih _ h
      · unfold faultEnd
        dsimp only
        intro hmem
        rcases List.mem_append.mp hmem with h | h
        · rcases List.mem_append.mp h with h | h
          · rcases List.mem_append.mp h with h | h
            · exact gateEvents_no_stopped host p m.c (hevs ▸ h)
            · have hsh := yieldPair_events_shape host p none ⟨c1, m.pending⟩
              rw [hyp] at hsh
              dsimp only at hsh
              rcases hsh with hsh | ⟨r, hsh, _, _⟩ <;> rw [hsh] at h <;> simp at h
          · simp at h
        · exact finishEvents_no_stopped fin h

theorem gateCross_context (p : Plugin) (c : Ctrl) :
    (gateCross p c).1.context = c.context := by
  unfold gateCross; split <;> rfl

theorem gateCross_validated (p : Plugin) (c : Ctrl) :
    (gateCross p c).1.validated = c.validated := by
  unfold gateCross; split <;> rfl

theorem pluginGate_fst (host : Host) (p : Plugin) (c : Ctrl) :
    (pluginGate host p c).1 = gateDecide host p (gateCross p c).1 := rfl

theorem pluginGate_stopIter_inv (host : Host) (p : Plugin) (c c' : Ctrl)
    (evs : List Event) (h : pluginGate host p c = (PluginGate.stopIter c', evs)) :
    c'.stopped = c.stopped ∧ c'.current_pair = c.current_pair := by
  have h1 : gateDecide host p (gateCross p c).1 = PluginGate.stopIter c' := by
    rw [← pluginGate_fst, h]
  obtain ⟨hs, hcp⟩ := gateDecide_stopIter_inv host p _ c' h1
  exact ⟨hs.trans (gateCross_stopped p c), hcp.trans (gateCross_current_pair p c)⟩

theorem pluginGate_skip_inv (host : Host) (p : Plugin) (c c' : Ctrl)
    (evs : List Event) (h : pluginGate host p c = (PluginGate.skip c', evs)) :
    c'.collected = c.collected ∧ c'.collectors_order = c.collectors_order ∧
    c'.stopped = c.stopped ∧ c'.current_pair = c.current_pair ∧
    c'.context = c.context ∧
    (c.collected = false → p.order ≤ c.collectors_order) := by
  have h1 : gateDecide host p (gateCross p c).1 = PluginGate.skip c' := by
    rw [← pluginGate_fst, h]
  obtain ⟨h2, h3, h4, h5, h6, h7⟩ := gateDecide_skip_inv host p _ c' h1
  refine ⟨h2.trans (gateCross_collected p c),
    h3.trans (gateCross_collectors_order p c),
    h4.trans (gateCross_stopped p c), h5.trans (gateCross_current_pair p c),
    h6.trans (gateCross_context p c), fun hc => ?_⟩
  have := h7 (by rw [gateCross_collected p c]; exact hc)
  rwa [gateCross_collectors_order p c] at this

theorem pluginGate_instLoop_inv (host : Host) (p : Plugin) (c c' : Ctrl)
    (insts : List Instance) (evs : List Event)
    (h : pluginGate host p c = (PluginGate.instLoop c' insts, evs)) :
    c'.collected = c.collected ∧ c'.collectors_order = c.collectors_order ∧
    c'.stopped = c.stopped ∧ c'.current_pair = c.current_pair ∧
    c'.context = c.context ∧ p.active = true ∧
    insts = instances_by_plugin c.context p ∧
    (c.collected = false → p.order ≤ c.collectors_order) := by
  have h1 : gateDecide host p (gateCross p c).1 = PluginGate.instLoop c' insts := by
    rw [← pluginGate_fst, h]
  obtain ⟨h2, h3, h4, h5, h6, h7, h8, h9⟩ := gateDecide_instLoop_inv host p _ c' insts h1
  refine ⟨h2.trans (gateCross_collected p c),
    h3.trans (gateCross_collectors_order p c),
    h4.trans (gateCross_stopped p c), h5.trans (gateCross_current_pair p c),
    h6.trans (gateCross_context p c), h7,
    by rw [h8, gateCross_context p c], fun hc => ?_⟩
  have := h9 (by rw [gateCross_collected p c]; exact hc)
  rwa [gateCross_collectors_order p c] at this

theorem pluginGate_ctxYield_inv (host : Host) (p : Plugin) (c c' : Ctrl)
    (evs : List Event) (h : pluginGate host p c = (PluginGate.ctxYield c', evs)) :
    c'.collected = c.collected ∧ c'.collectors_order = c.collectors_order ∧
    c'.stopped = c.stopped ∧ c'.current_pair = c.current_pair ∧
    c'.context = c.context ∧ p.active = true ∧
    (c.collected = false → p.order ≤ c.collectors_order) := by
  have h1 : gateDecide host p (gateCross p c).1 = PluginGate.ctxYield c' := by
    rw [← pluginGate_fst, h]
  obtain ⟨h2, h3, h4, h5, h6, h7, h8⟩ := gateDecide_ctxYield_inv host p _ c' h1
  refine ⟨h2.trans (gateCross_collected p c),
    h3.trans (gateCross_collectors_order p c),
    h4.trans (gateCross_stopped p c), h5.trans (gateCross_current_pair p c),
    h6.trans (gateCross_context p c), h7, fun hc => ?_⟩
  have := h8 (by rw [gateCross_collected p c]; exact hc)
  rwa [gateCross_collectors_order p c] at this

theorem genRaiseEnd_count (fin : Bool) (msg : String) (m : MState) :
    finishedCount (genRaiseEnd fin msg m).2.1 = endCount fin (genRaiseEnd fin msg m).2.2 := by
  unfold genRaiseEnd
  dsimp only [endCount]
  rw [finishedCount_append, finishEvents_count]
  simp [finishedCount, isFinishedEv]

theorem faultEnd_count (fin : Bool) (m : MState) (msg : String) (pre : List Event)
    (hpre : finishedCount pre = 0) :
    finishedCount (faultEnd fin m msg pre).2.1 = endCount fin (faultEnd fin m msg pre).2.2 := by
  unfold faultEnd
  dsimp only [endCount]
  rw [finishedCount_append, finishedCount_append, hpre, finishEvents_count]
  simp [finishedCount, isFinishedEv]

theorem yieldPair_count (host : Host) (p : Plugin) (oi : Option Instance) (m : MState) :
    finishedCount (yieldPair host p oi m).2.1 = 0 := by
  rcases yieldPair_events_shape host p oi m with h | ⟨r, h, _, _⟩ <;> rw [h] <;> rfl

/-- The run loop emits `was_finished` exactly as many times as its end
kind prescribes: once per invoked `on_finished` callback when the run
binds it, never otherwise. -/
theorem runPlugins_count (host : Host) (fin : Bool) :
    ∀ (ps : List Plugin) (m : MState),
      finishedCount (runPlugins host fin ps m).2.1 =
        endCount fin (runPlugins host fin ps m).2.2 := by
  intro ps
  induction ps with
  | nil =>
    intro m
    rw [runPlugins]
    exact stopIterEnd_count fin m
  | cons p ps ih =>
    intro m
    rw [runPlugins]
    rcases hg : pluginGate host p m.c with ⟨g, evs⟩
    have hevs : (pluginGate host p m.c).2 = evs := by rw [hg]
    have hevs0 : finishedCount evs = 0 := by
      rw [← hevs]; exact gateEvents_count host p m.c
    cases g <;> dsimp only
    · rw [prependEvents_events, prependEvents_rend, finishedCount_append, hevs0,
        Nat.zero_add]
      exact stopIterEnd_count fin _
    · rw [prependEvents_events, prependEvents_rend, finishedCount_append, hevs0,
        Nat.zero_add]
      exact genRaiseEnd_count fin _ _
    · rw [prependEvents_events, prependEvents_rend, finishedCount_append, hevs0,
        Nat.zero_add]
      exact ih _
    · rename_i c1 insts
      rcases hri : runInstLoop host p insts ⟨c1, m.pending⟩ with ⟨m5, evs5, lend⟩
      have hevs5 : finishedCount evs5 = 0 := by
        have := runInstLoop_count host p insts ⟨c1, m.pending⟩
        rw [hri] at this
        exact this
      cases lend <;> dsimp only
      · rw [prependEvents_events, prependEvents_rend, finishedCount_append,
          finishedCount_append, hevs0, hevs5]
        simp only [Nat.zero_add]
        exact ih _
      · exact faultEnd_count fin _ _ _ (by rw [finishedCount_append, hevs0, hevs5])
    · rename_i c1
      rcases hyp : yieldPair host p none ⟨c1, m.pending⟩ with ⟨m5, evs5, fault⟩
      have hevs5 : finishedCount evs5 = 0 := by
        have := yieldPair_count host p none ⟨c1, m.pending⟩
        rw [hyp] at this
        exact this
      cases fault <;> dsimp only
      · rw [prependEvents_events, prependEvents_rend, finishedCount_append,
          finishedCount_append, hevs0, hevs5]
        simp only [Nat.zero_add]
        exact ih _
      · exact faultEnd_count fin _ _ _ (by rw [finishedCount_append, hevs0, hevs5])

/-- Without a pending or requested stop, the run loop never ends in
the quiet (`on_next` returns silently) way. -/
theorem runPlugins_not_quiet (host : Host) (fin : Bool) :
    ∀ (ps : List Plugin) (m : MState), m.c.stopped = false → m.pending = none →
      (runPlugins host fin ps m).2.2 ≠ RunEnd.quietStop := by
  intro ps
  induction ps with
  | nil =>
    intro m hs hp
    rw [runPlugins, stopIterEnd_not_quiet fin m hs]
    simp
  | cons p ps ih =>
    intro m hs hp
    rw [runPlugins]
    rcases hg : pluginGate host p m.c with ⟨g, evs⟩
    cases g <;> dsimp only
    · rename_i c1
      rw [prependEvents_rend]
      obtain ⟨hs1, _⟩ := pluginGate_stopIter_inv host p m.c c1 evs hg
      rw [stopIterEnd_not_quiet fin _ (hs1.trans hs)]
      simp
    · rw [prependEvents_rend]
      unfold genRaiseEnd
      simp
    · rename_i c1
      rw [prependEvents_rend]
      obtain ⟨_, _, hs1, _, _, _⟩ := pluginGate_skip_inv host p m.c c1 evs hg
      exact ih ⟨c1, m.pending⟩ (hs1.trans hs) hp
    · rename_i c1 insts
      obtain ⟨_, _, hs1, _, _, _, _, _⟩ := pluginGate_instLoop_inv host p m.c c1 insts evs hg
      rcases hri : runInstLoop host p insts ⟨c1, m.pending⟩ with ⟨m5, evs5, lend⟩
      have hfr := runInstLoop_frame host p insts ⟨c1, m.pending⟩
      rw [hri] at hfr
      obtain ⟨hp5, hs5⟩ := hfr.2.2 hp
      cases lend <;> dsimp only
      · rw [prependEvents_rend]
        exact ih m5 (hs5.trans (hs1.trans hs)) hp5
      · unfold faultEnd
        simp
    · rename_i c1
      obtain ⟨_, _, hs1, _, _, _, _⟩ := pluginGate_ctxYield_inv host p m.c c1 evs hg
      rcases hyp : yieldPair host p none ⟨c1, m.pending⟩ with ⟨m5, evs5, fault⟩
      have hfr := yieldPair_frame host p none ⟨c1, m.pending⟩
      rw [hyp] at hfr
      obtain ⟨hp5, hs5⟩ := hfr.2.2 hp
      cases fault <;> dsimp only
      · rw [prependEvents_rend]
        exact ih m5 (hs5.trans (hs1.trans hs)) hp5
      · unfold faultEnd
        simp

/-- The exclusion invariant on one emitted event: a pair event never
names an inactive plugin nor an instance whose `publish` data is
`False`; other notifications are unconstrained. -/
def pairOK : Event → Prop
  | Event.about_to_process p oi =>
      p.active = true ∧ ∀ i, oi = some i → ¬ i.publish = some false
  | Event.was_processed r =>
      r.plugin.active = true ∧ ∀ i, r.inst = some i → ¬ i.publish = some false
  | _ => True

theorem pairOK_finishEvents (fin : Bool) : ∀ e ∈ finishEvents fin, pairOK e := by
  cases fin <;> simp [finishEvents, pairOK]

theorem runInstLoop_pairOK (host : Host) (p : Plugin) (irest : List Instance)
    (m : MState) (hact : p.active = true) :
    ∀ e ∈ (runInstLoop host p irest m).2.1, pairOK e := by
  intro e he
  rcases runInstLoop_events host p irest m e he with ⟨i, heq, hpub⟩ | ⟨r, heq, hp, i, hi, hpub⟩ <;>
    subst heq
  · exact ⟨hact, fun i' hi' => by injection hi' with h; rw [← h]; exact hpub⟩
  · exact ⟨by rw [hp]; exact hact, fun i' hi' => by
      rw [hi] at hi'; injection hi' with h; rw [← h]; exact hpub⟩

theorem yieldPair_pairOK (host : Host) (p : Plugin) (m : MState)
    (hact : p.active = true) :
    ∀ e ∈ (yieldPair host p none m).2.1, pairOK e := by
  intro e he
  rcases yieldPair_events_shape host p none m with h | ⟨r, h, hr1, hr2⟩ <;> rw [h] at he
  · rcases List.mem_singleton.mp he with rfl
    exact ⟨hact, fun i hi => Option.noConfusion hi⟩
  · rcases he with _ | ⟨_, he⟩
    · exact ⟨hact, fun i hi => Option.noConfusion hi⟩
    · rcases List.mem_singleton.mp he with rfl
      exact ⟨by rw [hr1]; exact hact, fun i hi => by rw [hr2] at hi; exact Option.noConfusion hi⟩

/-- No pair event of a run names an inactive plugin or a
`publish = False` instance (the per-plugin `active` gate and the
per-instance `publish` check of `_pair_yielder`). -/
theorem runPlugins_pairs (host : Host) (fin : Bool) :
    ∀ (ps : List Plugin) (m : MState),
      ∀ e ∈ (runPlugins host fin ps m).2.1, pairOK e := by
  intro ps
  induction ps with
  | nil =>
    intro m e he
    rw [runPlugins] at he
    rcases stopIterEnd_events fin m with h | h <;> rw [h] at he
    · exact pairOK_finishEvents fin e he
    · simp at he
  | cons p ps ih =>
    intro m e he
    rw [runPlugins] at he
    rcases hg : pluginGate host p m.c with ⟨g, evs⟩
    rw [hg] at he
    have hevs : (pluginGate host p m.c).2 = evs := by rw [hg]
    have hgevs : ∀ e ∈ evs, pairOK e := by
      intro e' he'
      rcases gateEvents_shape host p m.c with h | h <;> rw [hevs] at h <;> rw [h] at he'
      · simp at he'
      · rcases List.mem_singleton.mp he' with rfl
        trivial
    cases g <;> dsimp only at he
    · rw [prependEvents_events] at he
      rcases List.mem_append.mp he with h | h
      · exact hgevs e h
      · rcases stopIterEnd_events fin _ with hh | hh <;> rw [hh] at h
        · exact pairOK_finishEvents fin e h
        · simp at h
    · rw [prependEvents_events] at he
      rcases List.mem_append.mp he with h | h
      · exact hgevs e h
      · unfold genRaiseEnd at he h
        dsimp only at h
        rcases List.mem_append.mp h with h | h
        · rcases List.mem_singleton.mp h with rfl
          trivial
        · exact pairOK_finishEvents fin e h
    · rw [prependEvents_events] at he
      rcases List.mem_append.mp he with h | h
      · exact hgevs e h
      · exact ih _ e h
    · rename_i c1 insts
      obtain ⟨_, _, _, _, _, hact, _, _⟩ := pluginGate_instLoop_inv host p m.c c1 insts evs hg
      rcases hri : runInstLoop host p insts ⟨c1, m.pending⟩ with ⟨m5, evs5, lend⟩
      have hril : ∀ e ∈ evs5, pairOK e := by
        intro e' he'
        have := runInstLoop_pairOK host p insts ⟨c1, m.pending⟩ hact e'
        rw [hri] at this
        exact this he'
      rw [hri] at he
      cases lend <;> dsimp only at he
      · rw [prependEvents_events] at he
        rcases List.mem_append.mp he with h | h
        · rcases List.mem_append.mp h with h | h
          · exact hgevs e h
          · exact hril e h
        · exact ih _ e h
      · unfold faultEnd at he
        dsimp only at he
        rcases List.mem_append.mp he with h | h
        · rcases List.mem_append.mp h with h | h
          · rcases List.mem_append.mp h with h | h
            · exact hgevs e h
            · exact hril e h
          · rcases List.mem_singleton.mp h with rfl
            trivial
        · exact pairOK_finishEvents fin e h
    · rename_i c1
      obtain ⟨_, _, _, _, _, hact, _⟩ := pluginGate_ctxYield_inv host p m.c c1 evs hg
      rcases hyp : yieldPair host p none ⟨c1, m.pending⟩ with ⟨m5, evs5, fault⟩
      have hyl : ∀ e ∈ evs5, pairOK e := by
        intro e' he'
        have := yieldPair_pairOK host p ⟨c1, m.pending⟩ hact e'
        rw [hyp] at this
        exact this he'
      rw [hyp] at he
      cases fault <;> dsimp only at he
      · rw [prependEvents_events] at he
        rcases List.mem_append.mp he with h | h
        · rcases List.mem_append.mp h with h | h
          · exact hgevs e h
          · exact hyl e h
        · exact ih _ e h
      · unfold faultEnd at he
        dsimp only at he
        rcases List.mem_append.mp he with h | h
        · rcases List.mem_append.mp h with h | h
          · rcases List.mem_append.mp h with h | h
            · exact hgevs e h
            · exact hyl e h
          · rcases List.mem_singleton.mp h with rfl
            trivial
        · exact pairOK_finishEvents fin e h

theorem yieldPair_orders (host : Host) (p : Plugin) (oi : Option Instance)
    (m : MState) :
    ∀ x ∈ emittedOrders (yieldPair host p oi m).2.1, x = p.order := by
  intro x hx
  rcases yieldPair_events_shape host p oi m with h | ⟨r, h, hr1, _⟩ <;> rw [h] at hx
  · rw [show emittedOrders [Event.about_to_process p oi] = [p.order] from rfl] at hx
    rcases List.mem_singleton.mp hx with rfl
    rfl
  · rw [show emittedOrders [Event.about_to_process p oi, Event.was_processed r] =
        [p.order, r.plugin.order] from rfl] at hx
    rcases hx with _ | ⟨_, hx⟩
    · rfl
    · rw [List.mem_singleton.mp hx, hr1]

theorem stopIterEnd_orders (fin : Bool) (m : MState) :
    emittedOrders (stopIterEnd fin m).2.1 = [] := by
  rcases stopIterEnd_events fin m with h | h <;> rw [h]
  · exact finishEvents_orders fin
  · rfl

/-- Every order attached to a pair event of the run belongs to one of
the remaining plugins. -/
theorem runPlugins_orders_mem (host : Host) (fin : Bool) :
    ∀ (ps : List Plugin) (m : MState),
      ∀ x ∈ emittedOrders (runPlugins host fin ps m).2.1, ∃ q ∈ ps, x = q.order := by
  intro ps
  induction ps with
  | nil =>
    intro m x hx
    rw [runPlugins, stopIterEnd_orders] at hx
    simp at hx
  | cons p ps ih =>
    intro m x hx
    rw [runPlugins] at hx
    rcases hg : pluginGate host p m.c with ⟨g, evs⟩
    rw [hg] at hx
    have hevs : (pluginGate host p m.c).2 = evs := by rw [hg]
    have hgo : emittedOrders evs = [] := by rw [← hevs]; exact gateEvents_orders host p m.c
    cases g <;> dsimp only at hx
    · rw [prependEvents_events, emittedOrders_append, hgo, stopIterEnd_orders] at hx
      simp at hx
    · rw [prependEvents_events, emittedOrders_append, hgo] at hx
      unfold genRaiseEnd at hx
      dsimp only at hx
      rw [emittedOrders_append, finishEvents_orders] at hx
      simp [emittedOrders, eventOrder] at hx
    · rw [prependEvents_events, emittedOrders_append, hgo] at hx
      simp only [List.nil_append] at hx
      obtain ⟨q, hq, hxq⟩ := ih _ x hx
      exact ⟨q, List.mem_cons_of_mem p hq, hxq⟩
    · rename_i c1 insts
      rcases hri : runInstLoop host p insts ⟨c1, m.pending⟩ with ⟨m5, evs5, lend⟩
      have hblk : ∀ y ∈ emittedOrders evs5, y = p.order := by
        intro y hy
        have := runInstLoop_orders host p insts ⟨c1, m.pending⟩ y
        rw [hri] at this
        exact this hy
      rw [hri] at hx
      cases lend <;> dsimp only at hx
      · rw [prependEvents_events, emittedOrders_append, emittedOrders_append, hgo] at hx
        simp only [List.nil_append] at hx
        rcases List.mem_append.mp hx with h | h
        · exact ⟨p, List.mem_cons_self p ps, hblk x h⟩
        · obtain ⟨q, hq, hxq⟩ := ih _ x h
          exact ⟨q, List.mem_cons_of_mem p hq, hxq⟩
      · unfold faultEnd at hx
        dsimp only at hx
        rw [emittedOrders_append, emittedOrders_append, emittedOrders_append, hgo] at hx
        simp only [List.nil_append] at hx
        rcases List.mem_append.mp hx with h | h
        · rcases List.mem_append.mp h with h | h
          · exact ⟨p, List.mem_cons_self p ps, hblk x h⟩
          · simp [emittedOrders, eventOrder] at h
        · rw [finishEvents_orders] at h
          simp at h
    · rename_i c1
      rcases hyp : yieldPair host p none ⟨c1, m.pending⟩ with ⟨m5, evs5, fault⟩
      have hblk : ∀ y ∈ emittedOrders evs5, y = p.order := by
        intro y hy
        have := yieldPair_orders host p none ⟨c1, m.pending⟩ y
        rw [hyp] at this
        exact this hy
      rw [hyp] at hx
      cases fault <;> dsimp only at hx
      · rw [prependEvents_events, emittedOrders_append, emittedOrders_append, hgo] at hx
        simp only [List.nil_append] at hx
        rcases List.mem_append.mp hx with h | h
        · exact ⟨p, List.mem_cons_self p ps, hblk x h⟩
        · obtain ⟨q, hq, hxq⟩ := ih _ x h
          exact ⟨q, List.mem_cons_of_mem p hq, hxq⟩
      · unfold faultEnd at hx
        dsimp only at hx
        rw [emittedOrders_append, emittedOrders_append, emittedOrders_append, hgo] at hx
        simp only [List.nil_append] at hx
        rcases List.mem_append.mp hx with h | h
        · rcases List.mem_append.mp h with h | h
          · exact ⟨p, List.mem_cons_self p ps, hblk x h⟩
          · simp [emittedOrders, eventOrder] at h
        · rw [finishEvents_orders] at h
          simp at h

theorem pairwise_le_of_all_eq (a : ℚ) : ∀ (l : List ℚ), (∀ x ∈ l, x = a) →
    List.Pairwise (· ≤ ·) l := by
  intro l
  induction l with
  | nil => intro _; exact List.Pairwise.nil
  | cons x xs ih =>
    intro h
    refine List.Pairwise.cons (fun y hy => ?_) (ih fun y hy => h y (List.mem_cons_of_mem x hy))
    rw [h x (List.mem_cons_self x xs), h y (List.mem_cons_of_mem x hy)]

/-- Pair events are emitted in non-decreasing plugin order when the
remaining plugin list is sorted by order. -/
theorem runPlugins_orders_sorted (host : Host) (fin : Bool) :
    ∀ (ps : List Plugin) (m : MState),
      List.Pairwise (fun a b => a.order ≤ b.order) ps →
      List.Pairwise (· ≤ ·) (emittedOrders (runPlugins host fin ps m).2.1) := by
  intro ps
  induction ps with
  | nil =>
    intro m _
    rw [runPlugins, stopIterEnd_orders]
    exact List.Pairwise.nil
  | cons p ps ih =>
    intro m hsort
    rcases List.pairwise_cons.mp hsort with ⟨hhead, htail⟩
    rw [runPlugins]
    rcases hg : pluginGate host p m.c with ⟨g, evs⟩
    have hevs : (pluginGate host p m.c).2 = evs := by rw [hg]
    have hgo : emittedOrders evs = [] := by rw [← hevs]; exact gateEvents_orders host p m.c
    cases g <;> dsimp only
    · rw [prependEvents_events, emittedOrders_append, hgo, stopIterEnd_orders]
      exact List.Pairwise.nil
    · rw [prependEvents_events, emittedOrders_append, hgo]
      unfold genRaiseEnd
      dsimp only
      rw [emittedOrders_append, finishEvents_orders]
      simp [emittedOrders, eventOrder]
    · rw [prependEvents_events, emittedOrders_append, hgo]
      simp only [List.nil_append]
      exact ih _ htail
    · rename_i c1 insts
      rcases hri : runInstLoop host p insts ⟨c1, m.pending⟩ with ⟨m5, evs5, lend⟩
      have hblk : ∀ y ∈ emittedOrders evs5, y = p.order := by
        intro y hy
        have := runInstLoop_orders host p insts ⟨c1, m.pending⟩ y
        rw [hri] at this
        exact this hy
      cases lend <;> dsimp only
      · rw [prependEvents_events, emittedOrders_append, emittedOrders_append, hgo]
        simp only [List.nil_append]
        rw [List.pairwise_append]
        refine ⟨pairwise_le_of_all_eq p.order _ hblk, ih _ htail, fun a ha b hb => ?_⟩
        obtain ⟨q, hq, hbq⟩ := runPlugins_orders_mem host fin ps m5 b hb
        rw [hblk a ha, hbq]
        exact hhead q hq
      · unfold faultEnd
        dsimp only
        rw [emittedOrders_append, emittedOrders_append, emittedOrders_append, hgo,
          finishEvents_orders]
        simp only [List.nil_append, List.append_nil]
        rw [show emittedOrders [Event.u_print _] = [] from rfl, List.append_nil]
        exact pairwise_le_of_all_eq p.order _ hblk
    · rename_i c1
      rcases hyp : yieldPair host p none ⟨c1, m.pending⟩ with ⟨m5, evs5, fault⟩
      have hblk : ∀ y ∈ emittedOrders evs5, y = p.order := by
        intro y hy
        have := yieldPair_orders host p none ⟨c1, m.pending⟩ y
        rw [hyp] at this
        exact this hy
      cases fault <;> dsimp only
      · rw [prependEvents_events, emittedOrders_append, emittedOrders_append, hgo]
        simp only [List.nil_append]
        rw [List.pairwise_append]
        refine ⟨pairwise_le_of_all_eq p.order _ hblk, ih _ htail, fun a ha b hb => ?_⟩
        obtain ⟨q, hq, hbq⟩ := runPlugins_orders_mem host fin ps m5 b hb
        rw [hblk a ha, hbq]
        exact hhead q hq
      · unfold faultEnd
        dsimp only
        rw [emittedOrders_append, emittedOrders_append, emittedOrders_append, hgo,
          finishEvents_orders]
        simp only [List.nil_append, List.append_nil]
        rw [show emittedOrders [Event.u_print _] = [] from rfl, List.append_nil]
        exact pairwise_le_of_all_eq p.order _ hblk

/-- While `collected` is still false, the run can only process
plugins at or below the collect boundary: the first plugin beyond it
raises `StopIteration("Collected")` before yielding anything. -/
theorem runPlugins_collect_bound (host : Host) (fin : Bool) :
    ∀ (ps : List Plugin) (m : MState), m.c.collected = false →
      ∀ x ∈ emittedOrders (runPlugins host fin ps m).2.1,
        x ≤ m.c.collectors_order := by
  intro ps
  induction ps with
  | nil =>
    intro m _ x hx
    rw [runPlugins, stopIterEnd_orders] at hx
    simp at hx
  | cons p ps ih =>
    intro m hcol x hx
    rw [runPlugins] at hx
    rcases hg : pluginGate host p m.c with ⟨g, evs⟩
    rw [hg] at hx
    have hevs : (pluginGate host p m.c).2 = evs := by rw [hg]
    have hgo : emittedOrders evs = [] := by rw [← hevs]; exact gateEvents_orders host p m.c
    cases g <;> dsimp only at hx
    · rw [prependEvents_events, emittedOrders_append, hgo, stopIterEnd_orders] at hx
      simp at hx
    · rw [prependEvents_events, emittedOrders_append, hgo] at hx
      unfold genRaiseEnd at hx
      dsimp only at hx
      rw [emittedOrders_append, finishEvents_orders] at hx
      simp [emittedOrders, eventOrder] at hx
    · rename_i c1
      obtain ⟨hc1, hk1, _, _, _, _⟩ := pluginGate_skip_inv host p m.c c1 evs hg
      rw [prependEvents_events, emittedOrders_append, hgo] at hx
      simp only [List.nil_append] at hx
      have := ih ⟨c1, m.pending⟩ (hc1.trans hcol) x hx
      rwa [hk1] at this
    · rename_i c1 insts
      obtain ⟨hc1, hk1, _, _, _, _, _, hble⟩ := pluginGate_instLoop_inv host p m.c c1 insts evs hg
      rcases hri : runInstLoop host p insts ⟨c1, m.pending⟩ with ⟨m5, evs5, lend⟩
      have hblk : ∀ y ∈ emittedOrders evs5, y = p.order := by
        intro y hy
        have := runInstLoop_orders host p insts ⟨c1, m.pending⟩ y
        rw [hri] at this
        exact this hy
      have hfr := runInstLoop_frame host p insts ⟨c1, m.pending⟩
      rw [hri] at hfr
      rw [hri] at hx
      cases lend <;> dsimp only at hx
      · rw [prependEvents_events, emittedOrders_append, emittedOrders_append, hgo] at hx
        simp only [List.nil_append] at hx
        rcases List.mem_append.mp hx with h | h
        · rw [hblk x h]
          exact hble hcol
        · have := ih m5 (hfr.1.trans (hc1.trans hcol)) x h
          rwa [hfr.2.1, hk1] at this
      · unfold faultEnd at hx
        dsimp only at hx
        rw [emittedOrders_append, emittedOrders_append, emittedOrders_append, hgo,
          finishEvents_orders] at hx
        simp only [List.nil_append, List.append_nil] at hx
        rw [show emittedOrders [Event.u_print _] = [] from rfl, List.append_nil] at hx
        rw [hblk x hx]
        exact hble hcol
    · rename_i c1
      obtain ⟨hc1, hk1, _, _, _, _, hble⟩ := pluginGate_ctxYield_inv host p m.c c1 evs hg
      rcases hyp : yieldPair host p none ⟨c1, m.pending⟩ with ⟨m5, evs5, fault⟩
      have hblk : ∀ y ∈ emittedOrders evs5, y = p.order := by
        intro y hy
        have := yieldPair_orders host p none ⟨c1, m.pending⟩ y
        rw [hyp] at this
        exact this hy
      have hfr := yieldPair_frame host p none ⟨c1, m.pending⟩
      rw [hyp] at hfr
      rw [hyp] at hx
      cases fault <;> dsimp only at hx
      · rw [prependEvents_events, emittedOrders_append, emittedOrders_append, hgo] at hx
        simp only [List.nil_append] at hx
        rcases List.mem_append.mp hx with h | h
        · rw [hblk x h]
          exact hble hcol
        · have := ih m5 (hfr.1.trans (hc1.trans hcol)) x h
          rwa [hfr.2.1, hk1] at this
      · unfold faultEnd at hx
        dsimp only at hx
        rw [emittedOrders_append, emittedOrders_append, emittedOrders_append, hgo,
          finishEvents_orders] at hx
        simp only [List.nil_append, List.append_nil] at hx
        rw [show emittedOrders [Event.u_print _] = [] from rfl, List.append_nil] at hx
        rw [hblk x hx]
        exact hble hcol

/-- When a run ends through `on_unexpected_error`, its event trace is
whatever was emitted so far, then the printed fault, then whatever the
`on_finished` callback emits — and nothing else. -/
theorem runPlugins_fault_shape (host : Host) (fin : Bool) :
    ∀ (ps : List Plugin) (m : MState) (msg : String),
      (runPlugins host fin ps m).2.2 = RunEnd.finished (some msg) →
      ∃ pre, (runPlugins host fin ps m).2.1 =
        pre ++ [Event.u_print msg] ++ finishEvents fin := by
  intro ps
  induction ps with
  | nil =>
    intro m msg hend
    rw [runPlugins] at hend
    rcases stopIterEnd_rend fin m with h | h <;> rw [h] at hend <;> simp at hend
  | cons p ps ih =>
    intro m msg hend
    rw [runPlugins] at hend ⊢
    rcases hg : pluginGate host p m.c with ⟨g, evs⟩
    rw [hg] at hend
    cases g <;> dsimp only at hend ⊢
    · rw [prependEvents_rend] at hend
      rcases stopIterEnd_rend fin _ with h | h <;> rw [h] at hend <;> simp at hend
    · rename_i c1 msg1
      rw [prependEvents_rend] at hend
      unfold genRaiseEnd at hend ⊢
      dsimp only at hend ⊢
      simp only [RunEnd.finished.injEq, Option.some.injEq] at hend
      subst hend
      rw [prependEvents_events]
      exact ⟨evs, by rw [List.append_assoc]⟩
    · rw [prependEvents_rend] at hend
      rw [prependEvents_events]
      obtain ⟨pre, hpre⟩ := ih _ msg hend
      exact ⟨evs ++ pre, by rw [hpre]; simp [List.append_assoc]⟩
    · rename_i c1 insts
      rcases hri : runInstLoop host p insts ⟨c1, m.pending⟩ with ⟨m5, evs5, lend⟩
      rw [hri] at hend
      cases lend <;> dsimp only at hend ⊢
      · rw [prependEvents_rend] at hend
        rw [prependEvents_events]
        obtain ⟨pre, hpre⟩ := ih _ msg hend
        exact ⟨(evs ++ evs5) ++ pre, by rw [hpre]; simp [List.append_assoc]⟩
      · unfold faultEnd at hend ⊢
        dsimp only at hend ⊢
        simp only [RunEnd.finished.injEq, Option.some.injEq] at hend
        subst hend
        exact ⟨evs ++ evs5, rfl⟩
    · rename_i c1
      rcases hyp : yieldPair host p none ⟨c1, m.pending⟩ with ⟨m5, evs5, fault⟩
      rw [hyp] at hend
      cases fault <;> dsimp only at hend ⊢
      · rw [prependEvents_rend] at hend
        rw [prependEvents_events]
        obtain ⟨pre, hpre⟩ := ih _ msg hend
        exact ⟨(evs ++ evs5) ++ pre, by rw [hpre]; simp [List.append_assoc]⟩
      · unfold faultEnd at hend ⊢
        dsimp only at hend ⊢
        simp only [RunEnd.finished.injEq, Option.some.injEq] at hend
        subst hend
        exact ⟨evs ++ evs5, rfl⟩

theorem stopIterEnd_quiet_spec (fin : Bool) (m : MState)
    (hs : m.c.stopped = true) (hcp : m.c.current_pair ≠ none) :
    (stopIterEnd fin m).2.1 = [] ∧ (stopIterEnd fin m).2.2 = RunEnd.quietStop := by
  unfold stopIterEnd
  dsimp only
  rw [if_neg hcp, if_pos hs]
  exact ⟨rfl, rfl⟩

theorem stopIterEnd_finished_spec (fin : Bool) (m : MState)
    (hs : m.c.stopped = false) :
    (stopIterEnd fin m).2.1 = finishEvents fin ∧
    (stopIterEnd fin m).2.2 = RunEnd.finished none ∧
    (stopIterEnd fin m).1.c.gen = GenState.dead := by
  unfold stopIterEnd
  dsimp only
  split
  · exact ⟨rfl, rfl, rfl⟩
  · rw [if_neg (by simp [hs])]
    exact ⟨rfl, rfl, rfl⟩

theorem pluginGate_of_stopped (host : Host) (p : Plugin) (c : Ctrl)
    (h : c.stopped = true) :
    ∃ c', (pluginGate host p c).1 = PluginGate.stopIter c' ∧
      c'.stopped = true ∧ c'.current_pair = c.current_pair := by
  obtain ⟨c', hgd, hs', hcp'⟩ := gateDecide_of_stopped host p (gateCross p c).1
    (by rw [gateCross_stopped p c]; exact h)
  exact ⟨c', by rw [pluginGate_fst]; exact hgd, hs',
    hcp'.trans (gateCross_current_pair p c)⟩

theorem pluginGate_test_fires (host : Host) (p : Plugin) (c : Ctrl)
    (hs : c.stopped = false)
    (ht : ∀ st, ∃ m, host.test st = Except.ok m ∧ m ≠ "") :
    ∃ c', (pluginGate host p c).1 = PluginGate.stopIter c' ∧
      c'.stopped = false ∧ c'.current_pair = c.current_pair := by
  obtain ⟨c', hgd, hs', hcp'⟩ := gateDecide_test_stop host p (gateCross p c).1
    (by rw [gateCross_stopped p c]; exact hs) ht
  exact ⟨c', by rw [pluginGate_fst]; exact hgd, hs',
    hcp'.trans (gateCross_current_pair p c)⟩

/-- A resumed run that starts with the stop flag set (and a
non-`None` `current_pair`, i.e. any run after the first pull of the
reset cycle) terminates quietly before yielding any pair: no pair
event, no `was_finished`, no `was_stopped`. -/
theorem runPlugins_stopped_quiet (host : Host) (fin : Bool) (ps : List Plugin)
    (m : MState) (hs : m.c.stopped = true) (hcp : m.c.current_pair ≠ none) :
    pairEvents (runPlugins host fin ps m).2.1 = [] ∧
    finishedCount (runPlugins host fin ps m).2.1 = 0 ∧
    (runPlugins host fin ps m).2.2 = RunEnd.quietStop := by
  cases ps with
  | nil =>
    rw [runPlugins]
    obtain ⟨h1, h2⟩ := stopIterEnd_quiet_spec fin m hs hcp
    rw [h1, h2]
    exact ⟨rfl, rfl, rfl⟩
  | cons p ps =>
    rw [runPlugins]
    obtain ⟨c', hfst, hs', hcp'⟩ := pluginGate_of_stopped host p m.c hs
    rcases hg : pluginGate host p m.c with ⟨g, evs⟩
    rw [hg] at hfst
    dsimp only at hfst
    subst hfst
    dsimp only
    obtain ⟨h1, h2⟩ := stopIterEnd_quiet_spec fin ⟨c', m.pending⟩ hs'
      (by dsimp only; rw [hcp']; exact hcp)
    rw [prependEvents_events, prependEvents_rend, h1, h2, List.append_nil]
    have hevs : (pluginGate host p m.c).2 = evs := by rw [hg]
    refine ⟨?_, ?_, rfl⟩
    · rw [← hevs]; exact gateEvents_pairs host p m.c
    · rw [← hevs]; exact gateEvents_count host p m.c

/-- When the registered test reports a non-empty message for every
processing state (and no stop is pending), the run aborts before its
first pair: no pair events, the generator is left dead, the run ends
in the `on_finished` way. -/
theorem runPlugins_test_aborts (host : Host) (fin : Bool) (ps : List Plugin)
    (m : MState) (hs : m.c.stopped = false)
    (ht : ∀ st, ∃ msg, host.test st = Except.ok msg ∧ msg ≠ "") :
    pairEvents (runPlugins host fin ps m).2.1 = [] ∧
    finishedCount (runPlugins host fin ps m).2.1 = (if fin then 1 else 0) ∧
    (runPlugins host fin ps m).2.2 = RunEnd.finished none ∧
    (runPlugins host fin ps m).1.c.gen = GenState.dead := by
  cases ps with
  | nil =>
    rw [runPlugins]
    obtain ⟨h1, h2, h3⟩ := stopIterEnd_finished_spec fin m hs
    rw [h1, h2, h3]
    exact ⟨finishEvents_pairs fin, by rw [finishEvents_count], rfl, rfl⟩
  | cons p ps =>
    rw [runPlugins]
    obtain ⟨c', hfst, hs', hcp'⟩ := pluginGate_test_fires host p m.c hs ht
    rcases hg : pluginGate host p m.c with ⟨g, evs⟩
    rw [hg] at hfst
    dsimp only at hfst
    subst hfst
    dsimp only
    obtain ⟨h1, h2, h3⟩ := stopIterEnd_finished_spec fin ⟨c', m.pending⟩ hs'
    rw [prependEvents_events, prependEvents_rend, h1, h2]
    have hevs : (pluginGate host p m.c).2 = evs := by rw [hg]
    refine ⟨?_, ?_, rfl, ?_⟩
    · rw [pairEvents_append, finishEvents_pairs, List.append_nil, ← hevs]
      exact gateEvents_pairs host p m.c
    · rw [finishedCount_append, finishEvents_count, ← hevs,
        gateEvents_count host p m.c, Nat.zero_add]
    · rw [prependEvents_mstate]
      exact h3

/-! ## Lemmas at the `iterate_and_process` level -/

theorem iterate_no_stopped (host : Host) (fin : Bool) (c : Ctrl) :
    Event.was_stopped ∉ (iterate_and_process host fin c).2.1 := by
  unfold iterate_and_process
  dsimp only
  rcases hgen : c.gen with ps | ⟨p, irest, ps⟩ | _
  · exact runPlugins_no_stopped host fin ps _
  · dsimp only
    rcases hri : runInstLoop host p irest
      ⟨{ c with is_running := true, gen := GenState.inInsts p irest ps },
        host.stopAfter⟩ with ⟨m5, evs5, lend⟩
    have hril : Event.was_stopped ∉ evs5 := by
      have := runInstLoop_no_stopped host p irest
        ⟨{ c with is_running := true, gen := GenState.inInsts p irest ps },
          host.stopAfter⟩
      rw [hri] at this
      exact this
    cases lend <;> dsimp only
    · rw [prependEvents_events]
      intro hmem
      rcases List.mem_append.mp hmem with h | h
      · exact hril h
      · exact runPlugins_no_stopped host fin ps _ h
    · unfold faultEnd
      dsimp only
      intro hmem
      rcases List.mem_append.mp hmem with h | h
      · rcases List.mem_append.mp h with h | h
        · exact hril h
        · simp at h
      · exact finishEvents_no_stopped fin h
  · rcases stopIterEnd_events fin _ with h | h <;> rw [h]
    · exact finishEvents_no_stopped fin
    · simp

theorem iterate_finished_once (host : Host) (fin : Bool) (c : Ctrl)
    (hs : c.stopped = false) (hp : host.stopAfter = none) :
    finishedCount (iterate_and_process host fin c).2.1 = if fin then 1 else 0 := by
  unfold iterate_and_process
  dsimp only
  rcases hgen : c.gen with ps | ⟨p, irest, ps⟩ | _
  · have hcount := runPlugins_count host fin ps
      ⟨{ c with is_running := true, gen := GenState.atPlugins ps }, host.stopAfter⟩
    have hnq := runPlugins_not_quiet host fin ps
      ⟨{ c with is_running := true, gen := GenState.atPlugins ps }, host.stopAfter⟩ hs hp
    rcases hrend : (runPlugins host fin ps
      ⟨{ c with is_running := true, gen := GenState.atPlugins ps }, host.stopAfter⟩).2.2
      with fa | _
    · rw [hcount, hrend]
      rfl
    · exact absurd hrend hnq
  · dsimp only
    rcases hri : runInstLoop host p irest
      ⟨{ c with is_running := true, gen := GenState.inInsts p irest ps },
        host.stopAfter⟩ with ⟨m5, evs5, lend⟩
    have hril : finishedCount evs5 = 0 := by
      have := runInstLoop_count host p irest
        ⟨{ c with is_running := true, gen := GenState.inInsts p irest ps },
          host.stopAfter⟩
      rw [hri] at this
      exact this
    have hfr := runInstLoop_frame host p irest
      ⟨{ c with is_running := true, gen := GenState.inInsts p irest ps },
        host.stopAfter⟩
    rw [hri] at hfr
    obtain ⟨hp5, hs5⟩ := hfr.2.2 hp
    cases lend <;> dsimp only
    · rw [prependEvents_events, finishedCount_append, hril, Nat.zero_add]
      have hcount := runPlugins_count host fin ps m5
      have hnq := runPlugins_not_quiet host fin ps m5 (hs5.trans hs) hp5
      rcases hrend : (runPlugins host fin ps m5).2.2 with fa | _
      · rw [hcount, hrend]
        rfl
      · exact absurd hrend hnq
    · unfold faultEnd
      dsimp only
      rw [finishedCount_append, finishedCount_append, hril, finishEvents_count]
      simp [finishedCount, isFinishedEv]
  · have := stopIterEnd_count fin
      ⟨{ c with is_running := true, gen := GenState.dead }, host.stopAfter⟩
    rw [this, stopIterEnd_not_quiet fin _ hs]
    rfl

theorem iterate_fault_shape (host : Host) (fin : Bool) (c : Ctrl) (msg : String)
    (hend : (iterate_and_process host fin c).2.2 = RunEnd.finished (some msg)) :
    ∃ pre, (iterate_and_process host fin c).2.1 =
      pre ++ [Event.u_print msg] ++ finishEvents fin := by
  unfold iterate_and_process at hend ⊢
  dsimp only at hend ⊢
  rcases hgen : c.gen with ps | ⟨p, irest, ps⟩ | _
  · rw [hgen] at hend
    dsimp only at hend
    exact runPlugins_fault_shape host fin ps _ msg hend
  · rw [hgen] at hend
    dsimp only at hend
    dsimp only
    rcases hri : runInstLoop host p irest
      ⟨{ c with is_running := true, gen := GenState.inInsts p irest ps },
        host.stopAfter⟩ with ⟨m5, evs5, lend⟩
    rw [hri] at hend
    cases lend <;> dsimp only at hend ⊢
    · rw [prependEvents_rend] at hend
      obtain ⟨pre, hpre⟩ := runPlugins_fault_shape host fin ps m5 msg hend
      rw [prependEvents_events, hpre]
      exact ⟨evs5 ++ pre, by simp [List.append_assoc]⟩
    · unfold faultEnd at hend ⊢
      dsimp only at hend ⊢
      simp only [RunEnd.finished.injEq, Option.some.injEq] at hend
      subst hend
      exact ⟨evs5, rfl⟩
  · rw [hgen] at hend
    dsimp only at hend
    rcases stopIterEnd_rend fin _ with h | h <;> rw [h] at hend <;> simp at hend

theorem iterate_pairs_ok (host : Host) (fin : Bool) (c : Ctrl)
    (hwf : genWF c.gen = true) :
    ∀ e ∈ (iterate_and_process host fin c).2.1, pairOK e := by
  unfold iterate_and_process
  dsimp only
  rcases hgen : c.gen with ps | ⟨p, irest, ps⟩ | _
  · exact runPlugins_pairs host fin ps _
  · have hact : p.active = true := by
      rw [hgen] at hwf
      exact hwf
    dsimp only
    rcases hri : runInstLoop host p irest
      ⟨{ c with is_running := true, gen := GenState.inInsts p irest ps },
        host.stopAfter⟩ with ⟨m5, evs5, lend⟩
    have hril : ∀ e ∈ evs5, pairOK e := by
      intro e' he'
      have := runInstLoop_pairOK host p irest
        ⟨{ c with is_running := true, gen := GenState.inInsts p irest ps },
          host.stopAfter⟩ hact e'
      rw [hri] at this
      exact this he'
    cases lend <;> dsimp only
    · intro e he
      rw [prependEvents_events] at he
      rcases List.mem_append.mp he with h | h
      · exact hril e h
      · exact runPlugins_pairs host fin ps _ e h
    · intro e he
      unfold faultEnd at he
      dsimp only at he
      rcases List.mem_append.mp he with h | h
      · rcases List.mem_append.mp h with h | h
        · exact hril e h
        · rcases List.mem_singleton.mp h with rfl
          trivial
      · exact pairOK_finishEvents fin e h
  · intro e he
    rcases stopIterEnd_events fin _ with h | h <;> rw [h] at he
    · exact pairOK_finishEvents fin e he
    · simp at he

/-! ## Lemmas about the modelled OrderGroups and reset -/

theorem insertOrderKey_ne_nil (x : ℚ) (l : List ℚ) : insertOrderKey x l ≠ [] := by
  cases l with
  | nil => simp [insertOrderKey]
  | cons y ys =>
    unfold insertOrderKey
    split
    · simp
    · split <;> simp

theorem mem_insertOrderKey (x y : ℚ) : ∀ (l : List ℚ),
    y ∈ insertOrderKey x l ↔ y = x ∨ y ∈ l := by
  intro l
  induction l with
  | nil => simp [insertOrderKey]
  | cons z zs ih =>
    unfold insertOrderKey
    split
    · simp [or_comm, or_assoc, or_left_comm]
    · split
      · rename_i hlt heq
        subst heq
        simp [or_comm]
      · simp only [List.mem_cons, ih]
        rw [or_left_comm]

theorem sorted_insertOrderKey (x : ℚ) : ∀ (l : List ℚ),
    List.Pairwise (· < ·) l → List.Pairwise (· < ·) (insertOrderKey x l) := by
  intro l
  induction l with
  | nil =>
    intro _
    simp [insertOrderKey]
  | cons z zs ih =>
    intro hsort
    rcases List.pairwise_cons.mp hsort with ⟨hz, hzs⟩
    unfold insertOrderKey
    split
    · rename_i hlt
      refine List.pairwise_cons.mpr ⟨?_, hsort⟩
      intro y hy
      rcases List.mem_cons.mp hy with rfl | hy
      · exact hlt
      · exact lt_trans hlt (hz y hy)
    · split
      · exact hsort
      · rename_i hnlt hne
        have hzx : z < x := by
          rcases lt_trichotomy x z with h | h | h
        -- x < z contradicts hnlt; x = z contradicts hne
          · exact absurd h hnlt
          · exact absurd h hne
          · exact h
        refine List.pairwise_cons.mpr ⟨?_, ih hzs⟩
        intro y hy
        rcases (mem_insertOrderKey x y zs).mp hy with rfl | hy
        · exact hzx
        · exact hz y hy

theorem orderGroupsKeys_eq_nil_iff (ps : List Plugin) :
    orderGroupsKeys ps = [] ↔ ps = [] := by
  cases ps with
  | nil => simp [orderGroupsKeys]
  | cons p ps =>
    simp only [orderGroupsKeys, List.foldr_cons]
    constructor
    · intro h
      exact absurd h (insertOrderKey_ne_nil _ _)
    · intro h
      exact absurd h (by simp)

theorem mem_orderGroupsKeys (y : ℚ) : ∀ (ps : List Plugin),
    y ∈ orderGroupsKeys ps ↔ ∃ p ∈ ps, p.order = y := by
  intro ps
  induction ps with
  | nil => simp [orderGroupsKeys]
  | cons p ps ih =>
    simp only [orderGroupsKeys, List.foldr_cons]
    rw [mem_insertOrderKey]
    simp only [orderGroupsKeys] at ih
    rw [ih]
    constructor
    · rintro (rfl | ⟨q, hq, rfl⟩)
      · exact ⟨p, List.mem_cons_self p ps, rfl⟩
      · exact ⟨q, List.mem_cons_of_mem p hq, rfl⟩
    · rintro ⟨q, hq, rfl⟩
      rcases List.mem_cons.mp hq with rfl | hq
      · exact Or.inl rfl
      · exact Or.inr ⟨q, hq, rfl⟩

theorem orderGroupsKeys_sorted : ∀ (ps : List Plugin),
    List.Pairwise (· < ·) (orderGroupsKeys ps) := by
  intro ps
  induction ps with
  | nil => simp [orderGroupsKeys]
  | cons p ps ih =>
    simp only [orderGroupsKeys, List.foldr_cons]
    exact sorted_insertOrderKey p.order _ ih

/-- `reset_variables` succeeds exactly on a non-empty discovered set;
the collect boundary it computes is the least discovered order and the
validate boundary is the registered validation order. -/
theorem reset_variables_ok_spec (host : Host) (c : Ctrl)
    (h : host.discovered ≠ []) :
    ∃ c', reset_variables host c = Except.ok c' ∧
      c'.collected = false ∧ c'.stopped = false ∧
      c'.validators_order = host.validationOrder ∧
      (orderGroupsKeys host.discovered).head? = some c'.collectors_order ∧
      (∀ p ∈ host.discovered, c'.collectors_order ≤ p.order) ∧
      (∃ p ∈ host.discovered, p.order = c'.collectors_order) := by
  rcases hk : orderGroupsKeys host.discovered with _ | ⟨k0, krest⟩
  · exact absurd ((orderGroupsKeys_eq_nil_iff host.discovered).mp hk) h
  · have hsorted := orderGroupsKeys_sorted host.discovered
    rw [hk] at hsorted
    rcases List.pairwise_cons.mp hsorted with ⟨hmin, _⟩
    refine ⟨{ c with
        is_running := false, stopped := false, errored := false,
        gen := GenState.dead, current_pair := none,
        collectors_order := k0, collected := false,
        validators_order := host.validationOrder, validated := false,
        groupKeys := k0 :: krest,
        processing :=
          { stop_on_validation := false
            last_plugin_order := none
            current_order := some k0
            next_order := List.head? krest
            nextOrder := none
            ordersWithError := (∅ : Finset ℚ) } }, ?_, rfl, rfl, rfl, rfl, ?_, ?_⟩
    · unfold reset_variables
      rw [hk]
    · intro p hp
      have : p.order ∈ orderGroupsKeys host.discovered :=
        (mem_orderGroupsKeys p.order host.discovered).mpr ⟨p, hp, rfl⟩
      rw [hk] at this
      rcases List.mem_cons.mp this with heq | hmem
      · exact le_of_eq heq.symm
      · exact le_of_lt (hmin _ hmem)
    · have : (k0 : ℚ) ∈ orderGroupsKeys host.discovered := by
        rw [hk]; exact List.mem_cons_self k0 krest
      exact (mem_orderGroupsKeys k0 host.discovered).mp this

theorem reset_variables_error_of_empty (host : Host) (c : Ctrl)
    (h : host.discovered = []) :
    reset_variables host c = Except.error "IndexError: list index out of range" := by
  unfold reset_variables
  rw [show orderGroupsKeys host.discovered = [] from
    (orderGroupsKeys_eq_nil_iff host.discovered).mpr h]

/-! ## Additional concrete fixtures for the claims -/

/-- The run-end kind of a `reset`, when it did not raise. -/
def resetRend (h : Host) (c : Ctrl) : Option RunEnd :=
  match reset h c with
  | .ok out => some out.2.2
  | .error _ => none

/-- A Controller about to run `pluginB` context-level, with the
collect/validate flags already consumed and a previous pair in
`current_pair`. -/
def ctrlFault : Ctrl :=
  { ctrl0 with
    gen := GenState.atPlugins [pluginB]
    context := [instX]
    collected := true
    validated := true
    current_pair := some (none, none) }

/-- A Controller about to run the per-instance `pluginP` on two
instances and then the context-level `pluginQ`. -/
def ctrlStop : Ctrl :=
  { ctrl0 with
    gen := GenState.atPlugins [pluginP, pluginQ]
    context := [instX, instY]
    collected := true
    validated := true
    current_pair := some (none, none) }

/-- A Controller about to run `collectA` then the per-instance
`validateA` on a collected context. -/
def ctrlPairs : Ctrl :=
  { ctrl0 with
    gen := GenState.atPlugins [collectA, validateA]
    context := [instX]
    collected := true
    validated := true
    current_pair := some (none, none) }

/-- A host whose registered test always reports `"halt"`. -/
def hostAllHalt : Host :=
  { runPlugin := fun _ _ ctx => .ok (ctx, none)
    test := fun _ => .ok "halt"
    stopAfter := none
    discovered := []
    validationOrder := 2 }

/-- A Controller with a live generator at `pluginQ`, used to exercise
a test abort on a resumed run. -/
def ctrlHalt : Ctrl :=
  { ctrl0 with
    gen := GenState.atPlugins [pluginQ]
    context := [instX]
    collected := true
    validated := true
    current_pair := some (none, none) }

/-! ## The claims -/

/-- C1, counterexample: the collect run started by `reset()` on the
spec's own scenario host terminates normally (its `StopIteration`
handler invoked the finish callback, end kind `finished none`) after
processing the pair `(CollectA, None)` — yet not a single
`was_finished` notification is emitted, because `collect()` leaves
`iterate_and_process`'s `on_finished` callback at its no-op default.
This refutes "the Engine emits the finished notification
(was_finished) exactly once at the end of that run". -/
theorem C1_counterexample :
    resetRend hostMain ctrl0 = some (RunEnd.finished none) ∧
    pairEvents (resetEvents hostMain ctrl0) = [(collectA, none)] ∧
    finishedCount (resetEvents hostMain ctrl0) = 0 := by
  decide

/-- C1, amended: every run invokes its completion callback exactly
once — except a run ended by an honored stop request, which returns
silently — but only `publish()` binds that callback to
`Controller.on_finished`; hence `was_finished` is emitted exactly once
per `publish()` run and never for `collect()` or `validate()` runs. -/
theorem C1_finished_wiring (host : Host) (c : Ctrl)
    (hs : c.stopped = false) (hp : host.stopAfter = none) :
    finishedCount (publish host c).2.1 = 1 ∧
    finishedCount (collect host c).2.1 = 0 ∧
    finishedCount (validate host c).2.1 = 0 := by
  refine ⟨?_, ?_, ?_⟩
  · have := iterate_finished_once host true
      { c with processing := { c.processing with stop_on_validation := false } } hs hp
    rw [if_pos rfl] at this
    exact this
  · have := iterate_finished_once host false c hs hp
    rw [if_neg (by simp)] at this
    exact this
  · have := iterate_finished_once host false
      { c with processing := { c.processing with stop_on_validation := true } } hs hp
    rw [if_neg (by simp)] at this
    exact this

/-- C1, witness for the amended theorem at the scenario host. -/
theorem C1_finished_wiring_witness :
    ctrl0.stopped = false ∧ hostMain.stopAfter = none ∧
    (finishedCount (publish hostMain ctrl0).2.1 = 1 ∧
     finishedCount (collect hostMain ctrl0).2.1 = 0 ∧
     finishedCount (validate hostMain ctrl0).2.1 = 0) :=
  ⟨rfl, rfl, C1_finished_wiring hostMain ctrl0 rfl rfl⟩

/-- C2: the code, evaluated on the claim's own scenario
(`CollectA(order 0)` then the instance-enabled `ValidateA(order 1)`,
with `CollectA` collecting the publishable instance `X`).  The collect
run processes exactly the pair `(CollectA, None)` and collects `X`,
but it ends by `raise StopIteration("Collected")` inside the
`_pair_yielder` generator — which terminates the generator for good.
The subsequent `validate()` finds `self.pair_generator` exhausted:
`next()` raises a bare `StopIteration` at once and the run ends having
yielded zero pairs — `(ValidateA, X)` is never produced, although `X`
sits in the Context with `publish = True` and the generator's
`collected` flag was set precisely so that a resumed generator would
skip the raise. -/
theorem C2_generator_dead_after_collect :
    pairEvents (resetEvents hostMain ctrl0) = [(collectA, none)] ∧
    (afterReset hostMain ctrl0).context = [instX] ∧
    (afterReset hostMain ctrl0).collected = true ∧
    (afterReset hostMain ctrl0).gen = GenState.dead ∧
    pairEvents (validate hostMain (afterReset hostMain ctrl0)).2.1 = [] := by
  decide

/-- C6, counterexample: `reset` on a host whose registry discovers no
plugin raises an uncaught `IndexError` out of
`plugin_groups_keys[0]` — it does not degenerate to a usable
single-stage run. -/
theorem C6_counterexample :
    reset hostEmpty ctrl0 = Except.error "IndexError: list index out of range" := by
  rfl

/-- C6, amended: computing the stage boundaries at reset fails exactly
when the discovered plugin set is empty, and then `reset` raises an
uncaught `IndexError` (no usable run results); for any non-empty
plugin set `reset_variables` succeeds, the collect boundary is the
least discovered order and the validate boundary is the registered
validation order. -/
theorem C6_boundaries (host : Host) (c : Ctrl) :
    (host.discovered = [] →
      reset host c = Except.error "IndexError: list index out of range") ∧
    (host.discovered ≠ [] →
      ∃ c', reset_variables host c = Except.ok c' ∧
        (∀ p ∈ host.discovered, c'.collectors_order ≤ p.order) ∧
        (∃ p ∈ host.discovered, p.order = c'.collectors_order) ∧
        c'.validators_order = host.validationOrder) := by
  constructor
  · intro h
    unfold reset
    rw [reset_variables_error_of_empty host _ h]
  · intro h
    obtain ⟨c', heq, _, _, hvo, _, hmin, hex⟩ := reset_variables_ok_spec host c h
    exact ⟨c', heq, hmin, hex, hvo⟩

/-- C6, witness: the empty host raises; the scenario host computes
the boundaries (collect boundary 0, validate boundary 2). -/
theorem C6_boundaries_witness :
    (hostEmpty.discovered = [] ∧
      reset hostEmpty ctrl0 = Except.error "IndexError: list index out of range") ∧
    (hostMain.discovered ≠ [] ∧
      ∃ c', reset_variables hostMain ctrl0 = Except.ok c' ∧
        (∀ p ∈ hostMain.discovered, c'.collectors_order ≤ p.order) ∧
        (∃ p ∈ hostMain.discovered, p.order = c'.collectors_order) ∧
        c'.validators_order = hostMain.validationOrder) :=
  ⟨⟨rfl, (C6_boundaries hostEmpty ctrl0).1 rfl⟩,
   ⟨by decide, (C6_boundaries hostMain ctrl0).2 (by decide)⟩⟩

/-- C10: when the underlying `pyblish.plugin.process` call returns a
result, `_process` returns that result and mutates exactly
`processing["nextOrder"]` (to the plugin's order) and
`processing["ordersWithError"]` (adding the order exactly when the
result carries an error); `stop_on_validation`, `current_order`,
`next_order` and `last_plugin_order` are untouched. -/
theorem C10_process_frame (host : Host) (p : Plugin) (oi : Option Instance)
    (c : Ctrl) (ctx2 : List Instance) (err : Option String)
    (h : host.runPlugin p oi c.context = Except.ok (ctx2, err)) :
    (_process host p oi c).2 = Except.ok ⟨p, oi, err⟩ ∧
    (_process host p oi c).1.processing.nextOrder = some p.order ∧
    (_process host p oi c).1.processing.ordersWithError =
      (if err.isSome then insert p.order c.processing.ordersWithError
       else c.processing.ordersWithError) ∧
    (_process host p oi c).1.processing.stop_on_validation =
      c.processing.stop_on_validation ∧
    (_process host p oi c).1.processing.current_order = c.processing.current_order ∧
    (_process host p oi c).1.processing.next_order = c.processing.next_order ∧
    (_process host p oi c).1.processing.last_plugin_order =
      c.processing.last_plugin_order := by
  unfold _process
  dsimp only
  rw [h]
  exact ⟨rfl, rfl, rfl, rfl, rfl, rfl, rfl⟩

/-- C10, witness: `CollectA` processed on the empty context. -/
theorem C10_process_frame_witness :
    benignRun collectA none [] = Except.ok ([instX], none) ∧
    (_process hostMain collectA none ctrl0).2 =
      Except.ok ⟨collectA, none, none⟩ ∧
    (_process hostMain collectA none ctrl0).1.processing.nextOrder =
      some collectA.order :=
  ⟨rfl, (C10_process_frame hostMain collectA none ctrl0 [instX] none rfl).1,
    (C10_process_frame hostMain collectA none ctrl0 [instX] none rfl).2.1⟩

/-- C3, counterexample: a `validate()` run on a live generator
(suspended before `pluginQ` after `pluginA0` faulted during collect)
whose registered test reports `"halt"` whenever `stop_on_validation`
is set.  The predicate fires before the first pair of the command:
zero pairs are processed — but the run does not emit `finished` even
once (the end kind is `finished none`, yet the callback `validate()`
installed is a no-op), refuting "the run still completes its
lifecycle, emitting finished exactly once". -/
theorem C3_counterexample :
    (afterReset hostHalt ctrl0).gen = GenState.atPlugins [pluginB] ∧
    (afterReset hostHalt ctrl0).stopped = false ∧
    pairEvents (validate hostHalt (afterReset hostHalt ctrl0)).2.1 = [] ∧
    (validate hostHalt (afterReset hostHalt ctrl0)).2.2 = RunEnd.finished none ∧
    finishedCount (validate hostHalt (afterReset hostHalt ctrl0)).2.1 = 0 := by
  decide

/-- C3, amended: once the registered test returns a non-empty reason
for the plugin about to run, that pair and all subsequent pairs of the
command are suppressed — with the test firing before the first pair,
zero pairs are processed, the raised `StopIteration` leaves the
generator dead (so later commands yield nothing either), and the run
still completes its lifecycle by invoking its completion callback
exactly once: `was_finished` is emitted exactly once when the run
bound it (`publish()`), and never for `collect()`/`validate()`, whose
callback is a no-op. -/
theorem C3_predicate_abort (host : Host) (fin : Bool) (c : Ctrl)
    (ps : List Plugin) (hgen : c.gen = GenState.atPlugins ps)
    (hs : c.stopped = false)
    (ht : ∀ st, ∃ msg, host.test st = Except.ok msg ∧ msg ≠ "") :
    pairEvents (iterate_and_process host fin c).2.1 = [] ∧
    finishedCount (iterate_and_process host fin c).2.1 = (if fin then 1 else 0) ∧
    (iterate_and_process host fin c).2.2 = RunEnd.finished none ∧
    (iterate_and_process host fin c).1.gen = GenState.dead := by
  unfold iterate_and_process
  dsimp only
  rw [hgen]
  dsimp only
  exact runPlugins_test_aborts host fin ps
    ⟨{ c with is_running := true, gen := GenState.atPlugins ps }, host.stopAfter⟩ hs ht

/-- C3, witness: the always-`"halt"` host on a resumed run. -/
theorem C3_predicate_abort_witness :
    ctrlHalt.gen = GenState.atPlugins [pluginQ] ∧ ctrlHalt.stopped = false ∧
    (pairEvents (iterate_and_process hostAllHalt false ctrlHalt).2.1 = [] ∧
     finishedCount (iterate_and_process hostAllHalt false ctrlHalt).2.1 =
       (if false then 1 else 0) ∧
     (iterate_and_process hostAllHalt false ctrlHalt).2.2 = RunEnd.finished none ∧
     (iterate_and_process hostAllHalt false ctrlHalt).1.gen = GenState.dead) :=
  ⟨rfl, rfl, C3_predicate_abort hostAllHalt false ctrlHalt [pluginQ] rfl rfl
    (fun _ => ⟨"halt", rfl, by decide⟩)⟩

/-- C4, counterexample: a `publish()` run in which processing
`pluginB` raises.  The run ends through `on_unexpected_error`
(end kind `finished (some msg)`), the trace contains the printed
fault and one `was_finished` — but no `was_stopped` at all, and
`was_finished` is a bare signal carrying no error field: the claimed
"emits the stopped notification followed by the finished
notification, with the fault surfaced through the finished
notification's error field" does not hold. -/
theorem C4_counterexample :
    (publish hostFaultB ctrlFault).2.1 =
      [Event.about_to_process pluginB none,
       Event.u_print "Unknown error(B): boom", Event.was_finished] ∧
    (publish hostFaultB ctrlFault).2.2 =
      RunEnd.finished (some "Unknown error(B): boom") ∧
    Event.was_stopped ∉ (publish hostFaultB ctrlFault).2.1 := by
  decide

/-- C4, amended: whenever an unexpected orchestration fault occurs
during a run, the current run stops immediately and ends through
`on_unexpected_error`: the Engine emits no `was_stopped` notification
(it never emits one at all), prints the fault message, and then
invokes the completion callback once — `was_finished`, emitted only
for `publish()` runs, carries no error payload — and the exception
does not escape to the host. -/
theorem C4_fault_behavior (host : Host) (fin : Bool) (c : Ctrl) (msg : String) :
    Event.was_stopped ∉ (iterate_and_process host fin c).2.1 ∧
    ((iterate_and_process host fin c).2.2 = RunEnd.finished (some msg) →
      ∃ pre, (iterate_and_process host fin c).2.1 =
        pre ++ [Event.u_print msg] ++ finishEvents fin) :=
  ⟨iterate_no_stopped host fin c, iterate_fault_shape host fin c msg⟩

/-- C4, witness: the faulting publish run. -/
theorem C4_fault_behavior_witness :
    Event.was_stopped ∉
      (iterate_and_process hostFaultB true ctrlFault).2.1 ∧
    ∃ pre, (iterate_and_process hostFaultB true ctrlFault).2.1 =
      pre ++ [Event.u_print "Unknown error(B): boom"] ++ finishEvents true :=
  ⟨(C4_fault_behavior hostFaultB true ctrlFault "Unknown error(B): boom").1,
   (C4_fault_behavior hostFaultB true ctrlFault "Unknown error(B): boom").2
     (by decide)⟩

/-- C5, counterexample: the host requests `stop()` at the suspension
point right after the first processed pair (`stopAfter = some 1`).
The run nevertheless yields and processes the second instance pair
`(P, Y)` — the flag is only observed at plugin boundaries, not between
the instance pairs of one plugin — and when the pending stop is
finally honored at `pluginQ`'s boundary, the run returns silently:
no `was_stopped` notification is ever emitted. -/
theorem C5_counterexample :
    hostStopper.stopAfter = some 1 ∧
    (collect hostStopper ctrlStop).2.1 =
      [Event.about_to_process pluginP (some instX),
       Event.was_processed ⟨pluginP, some instX, none⟩,
       Event.about_to_process pluginP (some instY),
       Event.was_processed ⟨pluginP, some instY, none⟩] ∧
    (collect hostStopper ctrlStop).2.2 = RunEnd.quietStop ∧
    Event.was_stopped ∉ (collect hostStopper ctrlStop).2.1 := by
  decide

/-- C5, amended: `stop()` only sets the cooperative flag, observed at
the plugin boundaries of `_pair_yielder` (remaining instance pairs of
the current plugin still run); when the pending request is honored on
a resumed run, the run terminates before the next plugin's first pair
with no pair event — and no `stopped` (nor `finished`) notification is
emitted: the `StopIteration("Stopped")` handler returns silently. -/
theorem C5_stop_behavior (host : Host) (fin : Bool) (c : Ctrl) (ps : List Plugin)
    (hs : c.stopped = true) (hcp : c.current_pair ≠ none)
    (hgen : c.gen = GenState.atPlugins ps) :
    stop c = { c with stopped := true } ∧
    pairEvents (iterate_and_process host fin c).2.1 = [] ∧
    finishedCount (iterate_and_process host fin c).2.1 = 0 ∧
    (iterate_and_process host fin c).2.2 = RunEnd.quietStop ∧
    Event.was_stopped ∉ (iterate_and_process host fin c).2.1 := by
  refine ⟨rfl, ?_⟩
  have hns := iterate_no_stopped host fin c
  unfold iterate_and_process at hns ⊢
  dsimp only at hns ⊢
  rw [hgen] at hns ⊢
  dsimp only at hns ⊢
  obtain ⟨h1, h2, h3⟩ := runPlugins_stopped_quiet host fin ps
    ⟨{ c with is_running := true, gen := GenState.atPlugins ps }, host.stopAfter⟩ hs hcp
  exact ⟨h1, h2, h3, hns⟩

/-- The stop-pending resumed-run Controller of the C5 witness. -/
def ctrlStopPending : Ctrl :=
  { ctrl0 with
    stopped := true
    current_pair := some (none, none)
    gen := GenState.atPlugins [pluginP] }

/-- C5, witness: the stop-pending resumed run. -/
theorem C5_stop_behavior_witness :
    ctrlStopPending.stopped = true ∧ ctrlStopPending.current_pair ≠ none ∧
    (stop ctrlStopPending = { ctrlStopPending with stopped := true } ∧
     pairEvents (iterate_and_process hostMain false ctrlStopPending).2.1 = [] ∧
     finishedCount (iterate_and_process hostMain false ctrlStopPending).2.1 = 0 ∧
     (iterate_and_process hostMain false ctrlStopPending).2.2 = RunEnd.quietStop ∧
     Event.was_stopped ∉ (iterate_and_process hostMain false ctrlStopPending).2.1) :=
  ⟨rfl, by decide,
   C5_stop_behavior hostMain false ctrlStopPending [pluginP] rfl (by decide) rfl⟩

/-- C7: no pair is ever announced (`about_to_process`) or processed
(`was_processed`) for an inactive plugin, and no pair ever references
an instance whose `publish` data flag is `False` — for any host, any
command kind and any well-formed generator position. -/
theorem C7_pair_exclusions (host : Host) (fin : Bool) (c : Ctrl)
    (hwf : genWF c.gen = true) :
    (∀ p oi, Event.about_to_process p oi ∈ (iterate_and_process host fin c).2.1 →
      p.active = true ∧ ∀ i, oi = some i → ¬ i.publish = some false) ∧
    (∀ r, Event.was_processed r ∈ (iterate_and_process host fin c).2.1 →
      r.plugin.active = true ∧ ∀ i, r.inst = some i → ¬ i.publish = some false) := by
  constructor
  · intro p oi hmem
    exact iterate_pairs_ok host fin c hwf _ hmem
  · intro r hmem
    exact iterate_pairs_ok host fin c hwf _ hmem

/-- C7, witness: the scenario run yields the validator pair on `X`. -/
theorem C7_pair_exclusions_witness :
    genWF ctrlPairs.gen = true ∧
    Event.about_to_process validateA (some instX) ∈
      (iterate_and_process hostMain false ctrlPairs).2.1 ∧
    (validateA.active = true ∧
      ∀ i, (some instX : Option Instance) = some i → ¬ i.publish = some false) :=
  ⟨rfl, by decide,
   (C7_pair_exclusions hostMain false ctrlPairs rfl).1 validateA (some instX)
     (by decide)⟩

/-- C8: with the plugin list as supplied by the registry — ordered by
non-decreasing plugin order — the pair events of a run are emitted in
non-decreasing plugin order (`about_to_process` and `was_processed`
alike): every processed notification of a lower-order plugin precedes
every one of a higher-order plugin. -/
theorem C8_processed_order_monotone (host : Host) (fin : Bool) (c : Ctrl)
    (ps : List Plugin) (hgen : c.gen = GenState.atPlugins ps)
    (hsort : List.Pairwise (fun a b => a.order ≤ b.order) ps) :
    List.Pairwise (· ≤ ·) (emittedOrders (iterate_and_process host fin c).2.1) := by
  unfold iterate_and_process
  dsimp only
  rw [hgen]
  dsimp only
  exact runPlugins_orders_sorted host fin ps
    ⟨{ c with is_running := true, gen := GenState.atPlugins ps }, host.stopAfter⟩ hsort

/-- C8, witness: the scenario run emits orders `[0, 0, 1, 1, 1, 1]`
(collector pair, then two validator pairs), a non-decreasing list. -/
theorem C8_processed_order_monotone_witness :
    ctrlPairs.gen = GenState.atPlugins [collectA, validateA] ∧
    List.Pairwise (fun a b => a.order ≤ b.order) [collectA, validateA] ∧
    List.Pairwise (· ≤ ·)
      (emittedOrders (iterate_and_process hostMain false ctrlPairs).2.1) :=
  ⟨rfl, by decide,
   C8_processed_order_monotone hostMain false ctrlPairs [collectA, validateA]
     rfl (by decide)⟩

/-- `was_reset` carries no plugin order. -/
theorem emittedOrders_cons_reset (l : List Event) :
    emittedOrders (Event.was_reset :: l) = emittedOrders l := by
  simp [emittedOrders, eventOrder]

/-- Inversion of a successful `reset_variables`: the collect flag is
cleared and the collect boundary is the head of the group keys. -/
theorem reset_variables_ok_inv (host : Host) (c c' : Ctrl)
    (h : reset_variables host c = Except.ok c') :
    c'.collected = false ∧
    (orderGroupsKeys host.discovered).head? = some c'.collectors_order := by
  unfold reset_variables at h
  rcases hk : orderGroupsKeys host.discovered with _ | ⟨k0, krest⟩ <;> rw [hk] at h
  · exact absurd h (by simp)
  · simp only [Except.ok.injEq] at h
    subst h
    exact ⟨rfl, rfl⟩

/-- The outcome of a `reset` that did not raise (any fixed triple
otherwise). -/
def resetOk (h : Host) (c : Ctrl) : Ctrl × List Event × RunEnd :=
  match reset h c with
  | .ok out => out
  | .error _ => (c, [], RunEnd.quietStop)

/-- An order-3 context-level plugin (its order lies beyond the
registered validation order of the host below). -/
def pluginH : Plugin := ⟨"H", 3, true, false, ["*"]⟩

/-- A host whose only discovered plugin sits at order 3 while the
registered validation order is 2: the collect boundary (the least
discovered order, 3) is at/beyond the validate boundary. -/
def hostHigh : Host :=
  { runPlugin := fun _ _ ctx => .ok (ctx, none)
    test := fun _ => .ok ""
    stopAfter := none
    discovered := [pluginH]
    validationOrder := 2 }

/-- C9, counterexample: when the least discovered order (3) is
at/beyond the registered validation order (2), the collect run started
by `reset()` does process a plugin whose order is at or beyond the
validate boundary — the `Collected` raise fires only for
`plugin.order > self.collectors_order`, so the collect-boundary plugin
itself always runs.  The reset run emits the pair events of `pluginH`
(orders `[3, 3]`), both at/beyond the validate boundary, refuting the
unconditional containment claim. -/
theorem C9_counterexample :
    emittedOrders (resetEvents hostHigh ctrl0) = [3, 3] ∧
    hostHigh.validationOrder = 2 ∧
    hostHigh.validationOrder ≤ (3 : ℚ) := by
  decide

/-- C9, amended: the collect run started by `reset()` never produces a
pair event for a plugin whose order is strictly beyond the collect
boundary (the least discovered order) — the first such plugin raises
`StopIteration("Collected")` before yielding; consequently, whenever
the collect boundary lies strictly below the registered validation
order, no plugin at or beyond the validate boundary is processed.
When the validation order is at or below the collect boundary, the
collect-boundary plugins themselves are at/beyond it and do run. -/
theorem C9_collect_bound (host : Host) (c : Ctrl)
    (out : Ctrl × List Event × RunEnd) (k0 : ℚ)
    (hr : reset host c = Except.ok out)
    (hk0 : (orderGroupsKeys host.discovered).head? = some k0) :
    (∀ x ∈ emittedOrders out.2.1, x ≤ k0) ∧
    (k0 < host.validationOrder →
      ∀ x ∈ emittedOrders out.2.1, x < host.validationOrder) := by
  have hbound : ∀ x ∈ emittedOrders out.2.1, x ≤ k0 := by
    unfold reset at hr
    rcases hrv : reset_variables host { c with context := [] } with e | c1 <;>
      rw [hrv] at hr
    · exact absurd hr (by simp)
    · simp only [Except.ok.injEq] at hr
      obtain ⟨hcol, hhead⟩ := reset_variables_ok_inv host _ c1 hrv
      rw [hk0] at hhead
      have hk : c1.collectors_order = k0 := by
        injection hhead with h
        exact h.symm
      subst hr
      intro x hx
      dsimp only at hx
      rw [emittedOrders_cons_reset] at hx
      unfold collect iterate_and_process at hx
      dsimp only at hx
      have hb := runPlugins_collect_bound host false host.discovered _ hcol x hx
      have hb2 : x ≤ c1.collectors_order := hb
      rw [hk] at hb2
      exact hb2
  exact ⟨hbound, fun hlt x hx => lt_of_le_of_lt (hbound x hx) hlt⟩

/-- C9, witness for the amended theorem: on the scenario host the
reset collect run emits orders `[0, 0]`, all at the collect boundary 0
and strictly below the validation order 2. -/
theorem C9_collect_bound_witness :
    reset hostMain ctrl0 = Except.ok (resetOk hostMain ctrl0) ∧
    (orderGroupsKeys hostMain.discovered).head? = some 0 ∧
    (0 : ℚ) ∈ emittedOrders (resetOk hostMain ctrl0).2.1 ∧
    (0 : ℚ) ≤ 0 ∧
    ((0 : ℚ) < hostMain.validationOrder ∧ (0 : ℚ) < hostMain.validationOrder) :=
  ⟨by rfl, by decide, by decide,
   (C9_collect_bound hostMain ctrl0 (resetOk hostMain ctrl0) 0
     (by rfl) (by decide)).1 0 (by decide),
   by decide,
   (C9_collect_bound hostMain ctrl0 (resetOk hostMain ctrl0) 0
     (by rfl) (by decide)).2 (by decide) 0 (by decide)⟩

end Pyblish
